import Mathlib

/-!
Verification development for the ARW raw-decoder (src/readraw.go).

The Go source is shallowly embedded: pure functions become Lean functions,
machine integers become `ℕ`/`ℤ` with explicit `% 2^w` where overflow matters,
`float64` arithmetic is modelled exactly over `ℚ`, and fallible code returns
`Option`/`Except` (a Go index/slice panic or a `log.Fatal` is an abnormal
outcome of the embedding).  External collaborators that live outside src/
(the tag-tree reader `ExtractMetaData`/`ParseHeader`, the decryption
primitive `DecryptSR2`, the block decompressor and the `mat64` QR solve used
by `gammacorrect`) are modelled as oracle fields of environment records,
following the contracts of spec §6.
-/

namespace Arw

/-! ### Pixel corrector (src/readraw.go lines 150-168 and 196-207) -/

/-- The fixed exposure constant `gammaspace` of `process` (line 197). -/
def gammaspace : ℚ := 1.596472423

/-- Go's `uint32(f)` conversion applied to the float results of `process`.
For nonnegative in-range values this is truncation toward zero, i.e. the
floor; out-of-range conversions are not defined by the Go specification and
are modelled by `Int.toNat`'s clamping. -/
def truncU (q : ℚ) : ℕ := (⌊q⌋).toNat

/-- The gamma curve evaluation `gamma` (lines 150-168), with the
process-wide mutable `xfactors` slot passed explicitly (spec §9 requires the
coefficients to be modelled as an explicit value).  Inputs above `0x3fff`
return `0x3fff` verbatim; otherwise the input is divided by `0xCCC` and the
degree-5 polynomial is evaluated as the direct weighted sum written in the
source. -/
def gamma (xfactors : Fin 6 → ℚ) (x : ℚ) : ℚ :=
  if x > 0x3fff then 0x3fff
  else
    let x := x / 0xCCC
    let x5 := xfactors 5 * x * x * x * x * x
    let x4 := xfactors 4 * x * x * x * x
    let x3 := xfactors 3 * x * x * x
    let x2 := xfactors 2 * x * x
    let x1 := xfactors 1 * x
    let x0 := xfactors 0 * 1
    x5 + x4 + x3 + x2 + x1 + x0

/-- The pixel corrector `process` (lines 196-207): pass-through at or below
the black level, otherwise subtract, white-balance, run the gamma curve and
scale by `gammaspace`, truncating to an unsigned integer. -/
def process (xfactors : Fin 6 → ℚ) (cur black : ℕ) (whiteBalance : ℚ) : ℕ :=
  if cur ≤ black then cur
  else truncU (gamma xfactors (((cur - black : ℕ) : ℚ) * whiteBalance) * gammaspace)

/-- The degree-5 polynomial as claim C3 words it: a direct weighted sum of
powers 0..5 of the coefficients. -/
def polyPowers (c : Fin 6 → ℚ) (t : ℚ) : ℚ :=
  ∑ i : Fin 6, c i * t ^ (i : ℕ)

/-- The corrector exactly as claim C3 words it, to be compared with the
source-derived `process`: pass-through at or below the black level,
otherwise the unsigned truncation of `1.596472423` times the polynomial
evaluated at `((sample - blackLevel) * wbRatio) / 0xCCC`, where a gamma
input above `0x3FFF` yields the ceiling `0x3FFF` verbatim instead of the
polynomial value (spec §4.3 clamps the gamma input before the
normalisation step, so the ceiling test is applied to the un-normalised
input). -/
def correctClaim (c : Fin 6 → ℚ) (sample black : ℕ) (wbRatio : ℚ) : ℕ :=
  if sample ≤ black then sample
  else
    let inp : ℚ := ((sample : ℚ) - (black : ℚ)) * wbRatio
    truncU ((if inp > 0x3fff then (0x3fff : ℚ) else polyPowers c (inp / 0xCCC))
      * 1.596472423)

/-- Coefficient vector on which the corrector is not monotone: the fitted
polynomial `16000 - t` is strictly decreasing. -/
def xfCex : Fin 6 → ℚ
  | 0 => 16000
  | 1 => -1
  | _ => 0

/-- Identity-shaped coefficient vector: the fitted polynomial is
`0xCCC * t`, so the gamma curve is the identity below the ceiling. -/
def xfIdent : Fin 6 → ℚ
  | 1 => 0xCCC
  | _ => 0

/-! ### Tag records and parameter extraction (src/readraw.go lines 14-134) -/

/-- Tag identifier `SubIFDs`.  The tag-id constants are declared elsewhere
in the repository (outside src/); modelled from the spec with the standard
TIFF/ARW values — only their distinctness matters to the embedding. -/
def SubIFDs : ℕ := 0x014A

/-- Tag identifier `ImageWidth` (see `SubIFDs`). -/
def ImageWidth : ℕ := 0x0100

/-- Tag identifier `ImageHeight` (see `SubIFDs`). -/
def ImageHeight : ℕ := 0x0101

/-- Tag identifier `BitsPerSample` (see `SubIFDs`). -/
def BitsPerSample : ℕ := 0x0102

/-- Tag identifier `SonyRawFileType` (see `SubIFDs`). -/
def SonyRawFileType : ℕ := 0x7000

/-- Tag identifier `StripOffsets` (see `SubIFDs`). -/
def StripOffsets : ℕ := 0x0111

/-- Tag identifier `RowsPerStrip` (see `SubIFDs`). -/
def RowsPerStrip : ℕ := 0x0116

/-- Tag identifier `StripByteCounts` (see `SubIFDs`). -/
def StripByteCounts : ℕ := 0x0117

/-- Tag identifier `SonyCurve` (see `SubIFDs`). -/
def SonyCurve : ℕ := 0x7010

/-- Tag identifier `BlackLevel2` (see `SubIFDs`). -/
def BlackLevel2 : ℕ := 0x7310

/-- Tag identifier `WB_RGGBLevels` (see `SubIFDs`). -/
def WB_RGGBLevels : ℕ := 0x7313

/-- Tag identifier `DefaultCropSize` (see `SubIFDs`). -/
def DefaultCropSize : ℕ := 0xC61F

/-- Tag identifier `CFAPattern2` (see `SubIFDs`). -/
def CFAPattern2 : ℕ := 0x828E

/-- Tag identifier `CFARepeatPatternDim` (see `SubIFDs`). -/
def CFARepeatPatternDim : ℕ := 0x828D

/-- Tag identifier `DNGPrivateData` (see `SubIFDs`). -/
def DNGPrivateData : ℕ := 0xC634

/-- Tag identifier `SR2SubIFDOffset` (see `SubIFDs`). -/
def SR2SubIFDOffset : ℕ := 0x7200

/-- Tag identifier `SR2SubIFDLength` (see `SubIFDs`). -/
def SR2SubIFDLength : ℕ := 0x7201

/-- Tag identifier `SR2SubIFDKey` (see `SubIFDs`). -/
def SR2SubIFDKey : ℕ := 0x7221

/-- One tag record of a parsed IFD: its id, its inline value-or-offset and
the typed values of the external reader (the dereferenced `FIAvals[i].short`
and `.sshort` slices), zipped with the entry because the Go code indexes
`FIA` and `FIAvals` in parallel. -/
structure TagRec where
  tag : ℕ
  offset : ℕ
  short : List ℕ
  sshort : List ℤ
deriving DecidableEq

/-- A parsed IFD: its tag records in on-disk order. -/
structure IFD where
  FIA : List TagRec
deriving DecidableEq

/-- Error taxonomy of spec §7; error values originate in the external
tag-tree reader and propagate opaquely through `extractDetails`. -/
inductive ArwError where
  | format (code : ℕ)
  | io (code : ℕ)
deriving DecidableEq

/-- The TIFF header returned by the external `ParseHeader`. -/
structure TIFFHeader where
  Offset : ℕ
deriving DecidableEq

/-- The `rawDetails` record (lines 14-28).  Fixed-size Go arrays are lists
of that length; `crop` is declared but never assigned by the source and
stays the zero rectangle. -/
structure rawDetails where
  width : ℕ
  height : ℕ
  bitDepth : ℕ
  rawType : ℕ
  offset : ℕ
  stride : ℕ
  length : ℕ
  blackLevel : List ℕ
  WhiteBalance : List ℤ
  gammaCurve : List ℕ
  crop : ℕ × ℕ × ℕ × ℕ
  cfaPattern : List ℕ
  cfaPatternDim : List ℕ
deriving DecidableEq

/-- The Go zero value of `rawDetails` (`var rw rawDetails`, line 31). -/
def rawDetails.init : rawDetails :=
  ⟨0, 0, 0, 0, 0, 0, 0, [0, 0, 0, 0], [0, 0, 0, 0], [0, 0, 0, 0, 0],
    (0, 0, 0, 0), [0, 0, 0, 0], [0, 0]⟩

/-- Go's `copy(dst, src)` on slices: overwrites the first
`min (length dst) (length src)` elements of `dst` and keeps the rest. -/
def goCopy {α : Type} (dst src : List α) : List α :=
  src.take (min dst.length src.length) ++ dst.drop (min dst.length src.length)

/-- The `CFARepeatPatternDim` unpack of lines 79-80: two `uint16`s obtained
from the 32-bit tag value by MULTIPLYING with the masks (a `uint32` product,
reduced mod `2^32`) and then shifting. -/
def cfaDimUnpack (offset : ℕ) : ℕ × ℕ :=
  ((((offset * 0x0000ffff) % 2 ^ 32) >>> 0) % 2 ^ 16,
   (((offset * 0xffff0000) % 2 ^ 32) >>> 16) % 2 ^ 16)

/-- The unpack claim C6 describes: the first dimension is the low 16 bits of
the tag value, the second dimension its high 16 bits. -/
def cfaDimClaim (offset : ℕ) : ℕ × ℕ :=
  (offset % 2 ^ 16, (offset >>> 16) % 2 ^ 16)

/-- The sub-IFD tag switch (lines 47-81) applied in on-disk order.
`uint16(v.Offset)` conversions reduce mod `2^16`; the `DefaultCropSize`
case is empty in the source and falls through. -/
def applySubIFDTag (rw : rawDetails) (v : TagRec) : rawDetails :=
  if v.tag = ImageWidth then { rw with width := v.offset % 2 ^ 16 }
  else if v.tag = ImageHeight then { rw with height := v.offset % 2 ^ 16 }
  else if v.tag = BitsPerSample then { rw with bitDepth := v.offset % 2 ^ 16 }
  else if v.tag = SonyRawFileType then { rw with rawType := v.offset }
  else if v.tag = StripOffsets then { rw with offset := v.offset }
  else if v.tag = RowsPerStrip then { rw with stride := v.offset }
  else if v.tag = StripByteCounts then { rw with length := v.offset }
  else if v.tag = SonyCurve then
    { rw with gammaCurve := goCopy (rw.gammaCurve.take 4) v.short ++ [0x3fff] }
  else if v.tag = BlackLevel2 then
    { rw with blackLevel := goCopy rw.blackLevel v.short }
  else if v.tag = WB_RGGBLevels then
    { rw with WhiteBalance := goCopy rw.WhiteBalance v.sshort }
  else if v.tag = CFAPattern2 then
    { rw with cfaPattern :=
        [(v.offset &&& 0x000000ff) >>> 0, (v.offset &&& 0x0000ff00) >>> 8,
         (v.offset &&& 0x00ff0000) >>> 16, (v.offset &&& 0xff000000) >>> 24] }
  else if v.tag = CFARepeatPatternDim then
    { rw with cfaPatternDim := [(cfaDimUnpack v.offset).1, (cfaDimUnpack v.offset).2] }
  else rw

/-- The decrypted-block tag switch (lines 120-128): re-extract black level
and white balance, overwriting previously set values. -/
def applySR2Tag (rw : rawDetails) (v : TagRec) : rawDetails :=
  if v.tag = BlackLevel2 then { rw with blackLevel := goCopy rw.blackLevel v.short }
  else if v.tag = WB_RGGBLevels then { rw with WhiteBalance := goCopy rw.WhiteBalance v.sshort }
  else rw

/-- The 4-byte little-endian key derivation of lines 104-108
(`key := offset*0x0edd + 1`, `uint32` arithmetic).  The key is computed by
the source but never passed to `DecryptSR2`. -/
def sr2Key (seedOffset : ℕ) : List ℕ :=
  let key := (seedOffset * 0x0edd + 1) % 2 ^ 32
  [key % 2 ^ 8, (key >>> 8) % 2 ^ 8, (key >>> 16) % 2 ^ 8, (key >>> 24) % 2 ^ 8]

/-- The scan of the DNG private IFD (lines 95-110) for the SR2 offset,
length and key seed; later occurrences overwrite earlier ones. -/
def sr2Scan (l : List TagRec) : ℕ × ℕ × List ℕ :=
  l.foldl (fun acc v =>
    let acc := if v.tag = SR2SubIFDOffset then (v.offset, acc.2.1, acc.2.2) else acc
    let acc := if v.tag = SR2SubIFDLength then (acc.1, v.offset, acc.2.2) else acc
    if v.tag = SR2SubIFDKey then (acc.1, acc.2.1, sr2Key v.offset) else acc)
    (0, 0, [0, 0, 0, 0])

/-- Result of `extractDetails`: a normal return `(rw, nil)`, an error return
`(rw, err)`, or process termination through `log.Fatal` (line 117). -/
inductive ExtractResult where
  | ok (rw : rawDetails)
  | err (rw : rawDetails) (e : ArwError)
  | fatal (e : ArwError)
deriving DecidableEq

/-- Early exits of one iteration of the top-level tag loop. -/
inductive StepExit where
  | err (rw : rawDetails) (e : ArwError)
  | fatal (e : ArwError)

/-- The `SubIFDs` branch of the top-level loop (lines 40-83). -/
def stepSubIFD (extractMeta : ℕ → Except ArwError IFD) (rw : rawDetails)
    (fia : TagRec) : Except StepExit rawDetails :=
  if fia.tag = SubIFDs then
    match extractMeta fia.offset with
    | .error e => .error (.err rw e)
    | .ok rawIFD => .ok (rawIFD.FIA.foldl applySubIFDTag rw)
  else .ok rw

/-- The `DNGPrivateData` branch of the top-level loop (lines 85-130).  A
failure of the external reader on the source propagates as an error return;
a failure to re-parse the decrypted buffer hits `log.Fatal` (line 117). -/
def stepDNG (extractMeta : ℕ → Except ArwError IFD)
    (decryptSR2 : ℕ → ℕ → List ℕ) (parseSR2 : List ℕ → Except ArwError IFD)
    (rw : rawDetails) (fia : TagRec) : Except StepExit rawDetails :=
  if fia.tag = DNGPrivateData then
    match extractMeta fia.offset with
    | .error e => .error (.err rw e)
    | .ok dng =>
      let scan := sr2Scan dng.FIA
      let buf := decryptSR2 scan.1 scan.2.1
      match parseSR2 buf with
      | .error e => .error (.fatal e)
      | .ok sr2 => .ok (sr2.FIA.foldl applySR2Tag rw)
  else .ok rw

/-- The top-level loop over `meta.FIA` (lines 39-131), in on-disk order. -/
def extractLoop (extractMeta : ℕ → Except ArwError IFD)
    (decryptSR2 : ℕ → ℕ → List ℕ) (parseSR2 : List ℕ → Except ArwError IFD) :
    rawDetails → List TagRec → ExtractResult
  | rw, [] => .ok rw
  | rw, fia :: rest =>
    match stepSubIFD extractMeta rw fia with
    | .error (.err rw1 e) => .err rw1 e
    | .error (.fatal e) => .fatal e
    | .ok rw1 =>
      match stepDNG extractMeta decryptSR2 parseSR2 rw1 fia with
      | .error (.err rw2 e) => .err rw2 e
      | .error (.fatal e) => .fatal e
      | .ok rw2 => extractLoop extractMeta decryptSR2 parseSR2 rw2 rest

/-- `extractDetails` (lines 30-134).  `parseHeaderRes` is the pair returned
by the external `ParseHeader`; as in the source, its error component is
overwritten before being inspected (lines 33-34) and extraction continues
from whatever header offset was returned. -/
def extractDetails (parseHeaderRes : TIFFHeader × Option ArwError)
    (extractMeta : ℕ → Except ArwError IFD) (decryptSR2 : ℕ → ℕ → List ℕ)
    (parseSR2 : List ℕ → Except ArwError IFD) : ExtractResult :=
  let header := parseHeaderRes.1
  match extractMeta header.Offset with
  | .error e => .err rawDetails.init e
  | .ok meta => extractLoop extractMeta decryptSR2 parseSR2 rawDetails.init meta.FIA

/-- Top-level tag list used by the C1 scenario: a single
`DNGPrivateData` entry whose private IFD (at offset 77) parses fine, while
the decrypted SR2 buffer fails to parse. -/
def metaOracleC1 : ℕ → Except ArwError IFD := fun off =>
  if off = 0 then .ok ⟨[⟨DNGPrivateData, 77, [], []⟩]⟩
  else if off = 77 then .ok ⟨[]⟩
  else .error (.format 9)

/-! ### Raster cells (src/readraw.go lines 427-441) -/

/-- A raster cell (`pixel16`, lines 436-441): R, G, B and one padding slot,
each a `uint16`. -/
structure pixel16 where
  R : ℕ
  G : ℕ
  B : ℕ
  pad : ℕ
deriving DecidableEq

/-- The standard-color-model conversion (lines 427-430): each channel is
shifted left by 2 bits inside its 16-bit field (`c.R << 2` is a `uint16`
shift, wrapping mod `2^16`) and widened to `uint32`; alpha is `0xffff`. -/
def pixel16.RGBA (c : pixel16) : ℕ × ℕ × ℕ × ℕ :=
  ((c.R <<< 2) % 2 ^ 16, (c.G <<< 2) % 2 ^ 16, (c.B <<< 2) % 2 ^ 16, 0xffff)

/-! ### Raster buffer and the neighbor-fill pass
(src/readraw.go lines 289-306, 373-390, 396-409) -/

/-- The flat `Pix` slice of an `RGB14`: its length and its contents as a
total function (indices at or beyond `len` are irrelevant).  Go slice
indexing panics outside `[0, len)`, so all raster reads and writes go
through checked accessors returning `Option`. -/
structure PixBuf where
  len : ℕ
  val : ℕ → pixel16

/-- Checked read of `Pix[i]`. -/
def pixRead (b : PixBuf) (i : ℕ) : Option pixel16 :=
  if i < b.len then some (b.val i) else none

/-- Checked in-place update of `Pix[i]`. -/
def pixWrite (b : PixBuf) (i : ℕ) (f : pixel16 → pixel16) : Option PixBuf :=
  if i < b.len then
    some { b with val := fun j => if j = i then f (b.val i) else b.val j }
  else none

/-- The statement `Pix[dst].R = Pix[src].R`. -/
def copyR (b : PixBuf) (dst src : ℕ) : Option PixBuf := do
  let s ← pixRead b src
  pixWrite b dst fun d => { d with R := s.R }

/-- The statement `Pix[dst].G = Pix[src].G`. -/
def copyG (b : PixBuf) (dst src : ℕ) : Option PixBuf := do
  let s ← pixRead b src
  pixWrite b dst fun d => { d with G := s.G }

/-- The statement `Pix[dst].B = Pix[src].B`. -/
def copyB (b : PixBuf) (dst src : ℕ) : Option PixBuf := do
  let s ← pixRead b src
  pixWrite b dst fun d => { d with B := s.B }

/-- The `RGB14` raster (lines 402-409): pixel slice, stride and the
`Rect` bounds `(0,0)-(MaxX,MaxY)`. -/
structure RGB14 where
  Pix : PixBuf
  Stride : ℕ
  MaxX : ℕ
  MaxY : ℕ

/-- `NewRGB14` (lines 396-400): `w*h` zero cells, stride `w`. -/
def NewRGB14 (w h : ℕ) : RGB14 :=
  ⟨⟨w * h, fun _ => ⟨0, 0, 0, 0⟩⟩, w, w, h⟩

/-- The four even-row fill statements of `readCRAW` (lines 291-295) for the
column pair starting at even `x` of row `y`: the two statements at `x`,
the `x++`, and the two statements at `x+1`. -/
def crawFillTopTile (s y x : ℕ) (b : PixBuf) : Option PixBuf := do
  let b ← copyG b (y * s + x) (y * s + x + 1)
  let b ← copyB b (y * s + x) ((y + 1) * s + x + 1)
  let b ← copyR b (y * s + x + 1) (y * s + x)
  let b ← copyB b (y * s + x + 1) ((y + 1) * s + x + 1)
  pure b

/-- The four odd-row fill statements of `readCRAW` (lines 300-304) for the
column pair starting at even `x` of row `y` (the source reads row `y-1`
and, for the second statement pair, column `x-1` of it). -/
def crawFillBotTile (s y x : ℕ) (b : PixBuf) : Option PixBuf := do
  let b ← copyR b (y * s + x) ((y - 1) * s + x)
  let b ← copyB b (y * s + x) (y * s + x + 1)
  let b ← copyR b (y * s + x + 1) ((y - 1) * s + x)
  let b ← copyG b (y * s + x + 1) (y * s + x)
  pure b

/-- The even-row column loop of `readCRAW`'s fill pass (lines 290-296):
`x` advances by two per iteration (one `x++` in the body, one in the loop
header); the fuel bounds the iteration count and is always passed `≥ w/2`. -/
def crawFillRowTop (s w y : ℕ) : ℕ → ℕ → PixBuf → Option PixBuf
  | 0, _, b => some b
  | fuel + 1, x, b =>
    if x < w then do
      let b ← crawFillTopTile s y x b
      crawFillRowTop s w y fuel (x + 2) b
    else some b

/-- The odd-row column loop of `readCRAW`'s fill pass (lines 299-305). -/
def crawFillRowBot (s w y : ℕ) : ℕ → ℕ → PixBuf → Option PixBuf
  | 0, _, b => some b
  | fuel + 1, x, b =>
    if x < w then do
      let b ← crawFillBotTile s y x b
      crawFillRowBot s w y fuel (x + 2) b
    else some b

/-- The outer row loop of `readCRAW`'s fill pass (lines 289-306): `y`
advances by two per iteration, running the even-row loop on row `y` and the
odd-row loop on row `y+1`; the `y++` between the two inner loops does not
re-check the bound, so an odd height makes the odd-row loop touch row `h`. -/
def crawFillRows (s w h : ℕ) : ℕ → ℕ → PixBuf → Option PixBuf
  | 0, _, b => some b
  | fuel + 1, y, b =>
    if y < h then do
      let b ← crawFillRowTop s w y w 0 b
      let b ← crawFillRowBot s w (y + 1) w 0 b
      crawFillRows s w h fuel (y + 2) b
    else some b

/-- The neighbor-fill pass as it appears in `readCRAW` (lines 289-306). -/
def crawFillPass (s w h : ℕ) (b : PixBuf) : Option PixBuf :=
  crawFillRows s w h h 0 b

/-- The four even-row fill statements of `readraw14` (lines 375-379),
a verbatim copy of the `readCRAW` ones. -/
def linFillTopTile (s y x : ℕ) (b : PixBuf) : Option PixBuf := do
  let b ← copyG b (y * s + x) (y * s + x + 1)
  let b ← copyB b (y * s + x) ((y + 1) * s + x + 1)
  let b ← copyR b (y * s + x + 1) (y * s + x)
  let b ← copyB b (y * s + x + 1) ((y + 1) * s + x + 1)
  pure b

/-- The four odd-row fill statements of `readraw14` (lines 384-388). -/
def linFillBotTile (s y x : ℕ) (b : PixBuf) : Option PixBuf := do
  let b ← copyR b (y * s + x) ((y - 1) * s + x)
  let b ← copyB b (y * s + x) (y * s + x + 1)
  let b ← copyR b (y * s + x + 1) ((y - 1) * s + x)
  let b ← copyG b (y * s + x + 1) (y * s + x)
  pure b

/-- The even-row column loop of `readraw14`'s fill pass (lines 374-380). -/
def linFillRowTop (s w y : ℕ) : ℕ → ℕ → PixBuf → Option PixBuf
  | 0, _, b => some b
  | fuel + 1, x, b =>
    if x < w then do
      let b ← linFillTopTile s y x b
      linFillRowTop s w y fuel (x + 2) b
    else some b

/-- The odd-row column loop of `readraw14`'s fill pass (lines 383-389). -/
def linFillRowBot (s w y : ℕ) : ℕ → ℕ → PixBuf → Option PixBuf
  | 0, _, b => some b
  | fuel + 1, x, b =>
    if x < w then do
      let b ← linFillBotTile s y x b
      linFillRowBot s w y fuel (x + 2) b
    else some b

/-- The outer row loop of `readraw14`'s fill pass (lines 373-390). -/
def linFillRows (s w h : ℕ) : ℕ → ℕ → PixBuf → Option PixBuf
  | 0, _, b => some b
  | fuel + 1, y, b =>
    if y < h then do
      let b ← linFillRowTop s w y w 0 b
      let b ← linFillRowBot s w (y + 1) w 0 b
      linFillRows s w h fuel (y + 2) b
    else some b

/-- The neighbor-fill pass as it appears in `readraw14` (lines 373-390). -/
def linFillPass (s w h : ℕ) (b : PixBuf) : Option PixBuf :=
  linFillRows s w h h 0 b

/-! ### Characterisation of the neighbor-fill pass -/

/-- Value of a raster cell after the four even-row statements ran on the
column pair at even `x` of row `y` (stride `s`), in terms of the raster `P`
before them. -/
def topTileVal (s y x : ℕ) (P : ℕ → pixel16) (j : ℕ) : pixel16 :=
  if j = y * s + x then
    ⟨(P (y * s + x)).R, (P (y * s + x + 1)).G, (P ((y + 1) * s + x + 1)).B,
      (P (y * s + x)).pad⟩
  else if j = y * s + x + 1 then
    ⟨(P (y * s + x)).R, (P (y * s + x + 1)).G, (P ((y + 1) * s + x + 1)).B,
      (P (y * s + x + 1)).pad⟩
  else P j

/-- Value of a raster cell after the four odd-row statements ran on the
column pair at even `x` of odd row `y`. -/
def botTileVal (s y x : ℕ) (P : ℕ → pixel16) (j : ℕ) : pixel16 :=
  if j = y * s + x then
    ⟨(P ((y - 1) * s + x)).R, (P (y * s + x)).G, (P (y * s + x + 1)).B,
      (P (y * s + x)).pad⟩
  else if j = y * s + x + 1 then
    ⟨(P ((y - 1) * s + x)).R, (P (y * s + x)).G, (P (y * s + x + 1)).B,
      (P (y * s + x + 1)).pad⟩
  else P j

/-- Raster contents after the even-row column loop ran from column `x0` to
the end of row `y`. -/
def topRowVal (w y x0 : ℕ) (P : ℕ → pixel16) (j : ℕ) : pixel16 :=
  if y * w + x0 ≤ j ∧ j < y * w + w then
    topTileVal w y (2 * ((j - y * w) / 2)) P j
  else P j

/-- Raster contents after the odd-row column loop ran from column `x0` to
the end of row `y`. -/
def botRowVal (w y x0 : ℕ) (P : ℕ → pixel16) (j : ℕ) : pixel16 :=
  if y * w + x0 ≤ j ∧ j < y * w + w then
    botTileVal w y (2 * ((j - y * w) / 2)) P j
  else P j

/-- Raster contents after the complete neighbor-fill pass on an even-width,
even-height raster: for a cell in row `y` and column `x`, with `ye`/`xe` the
even corners of its 2×2 tile, R comes from `(xe, ye)`, G from `(xe+1, ye)`
on even rows and from `(xe, ye+1)` on odd rows, B from `(xe+1, ye+1)`, and
the padding slot is untouched. -/
def fillVal (w h : ℕ) (P : ℕ → pixel16) (j : ℕ) : pixel16 :=
  if j < h * w ∧ 0 < w then
    ⟨(P (2 * (j / w / 2) * w + 2 * (j % w / 2))).R,
     (if (j / w) % 2 = 0 then (P (2 * (j / w / 2) * w + 2 * (j % w / 2) + 1)).G
      else (P ((2 * (j / w / 2) + 1) * w + 2 * (j % w / 2))).G),
     (P ((2 * (j / w / 2) + 1) * w + 2 * (j % w / 2) + 1)).B,
     (P j).pad⟩
  else P j

/-- Raster contents after the fill pass processed all row pairs from `y0`
on: rows before `y0` keep their current contents. -/
def rowsVal (w h y0 : ℕ) (P : ℕ → pixel16) (j : ℕ) : pixel16 :=
  if y0 * w ≤ j then fillVal w h P j else P j

/-! ### Channel-write passes (src/readraw.go lines 209-288 and 311-371) -/

/-- Go's `uint16(v)` conversion on the corrected sample before it is stored
in a raster slot. -/
def trunc16 (n : ℕ) : ℕ := n % 2 ^ 16

/-- The block size constant `pixelBlockSize`, declared elsewhere in the
repository (outside src/); modelled from the spec: a compressed group
decompresses to 16 samples, two groups of 16 payload bytes per 32-sample
block. -/
def pixelBlockSize : ℕ := 16

/-- Oracles for `readCRAW`'s external collaborators (outside src/),
modelled from the spec §6: `decomp` is `readCrawBlock` followed by
`Decompress`, mapping a block byte-slice to its 16 samples (`decomp bs i`
is sample `i`; indices beyond 15 are never used); `solve` is the
`gammacorrect` fit of lines 171-194, whose linear solve is delegated to the
external `mat64` QR factorisation — it maps the four curve points to the
six polynomial coefficients, low degree first. -/
structure CrawEnv where
  decomp : List ℕ → ℕ → ℕ
  solve : List ℕ → Fin 6 → ℚ

/-- The white-balance maximum of lines 220-231: a chain of comparisons over
the four signed entries. -/
def maxBalance (wb : List ℤ) : ℤ :=
  let m0 := if wb.getD 0 0 > wb.getD 1 0 then wb.getD 0 0 else wb.getD 1 0
  let m1 := if wb.getD 2 0 > m0 then wb.getD 2 0 else m0
  if wb.getD 3 0 > m1 then wb.getD 3 0 else m1

/-- The per-channel white-balance ratios of lines 233-236 (float division
modelled over `ℚ`; a zero maximum, division by zero in Go, yields 0 here —
no claim depends on that case). -/
def whiteBalanceRGGB (wb : List ℤ) (k : ℕ) : ℚ :=
  ((wb.getD k 0 : ℤ) : ℚ) / ((maxBalance wb : ℤ) : ℚ)

/-- Field write `Pix[i].R = v`. -/
def setRv (p : pixel16) (v : ℕ) : pixel16 := { p with R := v }

/-- Field write `Pix[i].G = v`. -/
def setGv (p : pixel16) (v : ℕ) : pixel16 := { p with G := v }

/-- Field write `Pix[i].B = v`. -/
def setBv (p : pixel16) (v : ℕ) : pixel16 := { p with B := v }

/-- The interleaving write loop of lines 260-263 / 282-285: for
`i < pixelBlockSize`, write the first group's sample `i` into slot
`base + i*2` with `setA` and the second group's sample `i` into
`base + i*2 + 1` with `setB`. -/
def crawWritePairs (setA setB : pixel16 → ℕ → pixel16) (av bv : ℕ → ℕ)
    (base : ℕ) : ℕ → ℕ → PixBuf → Option PixBuf
  | 0, _, b => some b
  | fuel + 1, i, b =>
    if i < 16 then do
      let b ← pixWrite b (base + i * 2) (fun p => setA p (av i))
      let b ← pixWrite b (base + i * 2 + 1) (fun p => setB p (bv i))
      crawWritePairs setA setB av bv base fuel (i + 1) b
    else some b

/-- One block iteration of `readCRAW`'s channel loop (lines 242-286):
slice two 16-byte groups at `base` (a Go slice panic if the payload is too
short), decompress both, correct them, and interleave.  Even rows
(lines 242-263) write R and G; odd rows (lines 264-285) write G and B —
both branches correct with `blackLevel[0]`/ratio 0 for the first group and
`blackLevel[1]`/ratio 1 for the second. -/
def crawBlock (env : CrawEnv) (xf : Fin 6 → ℚ) (rw : rawDetails) (wbR : ℕ → ℚ)
    (buf : List ℕ) (y base : ℕ) (b : PixBuf) : Option PixBuf :=
  if base + 2 * pixelBlockSize ≤ buf.length then
    if y % 2 = 0 then
      let red : ℕ → ℕ := env.decomp ((buf.drop base).take pixelBlockSize)
      let green : ℕ → ℕ := env.decomp ((buf.drop (base + pixelBlockSize)).take pixelBlockSize)
      crawWritePairs setRv setGv
        (fun i => trunc16 (process xf (red i) (rw.blackLevel.getD 0 0) (wbR 0)))
        (fun i => trunc16 (process xf (green i) (rw.blackLevel.getD 1 0) (wbR 1)))
        base 16 0 b
    else
      let green : ℕ → ℕ := env.decomp ((buf.drop base).take pixelBlockSize)
      let blue : ℕ → ℕ := env.decomp ((buf.drop (base + pixelBlockSize)).take pixelBlockSize)
      crawWritePairs setGv setBv
        (fun i => trunc16 (process xf (green i) (rw.blackLevel.getD 0 0) (wbR 0)))
        (fun i => trunc16 (process xf (blue i) (rw.blackLevel.getD 1 0) (wbR 1)))
        base 16 0 b
  else none

/-- The inner column loop of `readCRAW`'s channel pass (lines 241-287),
advancing by 32 columns per block. -/
def crawChannelRow (env : CrawEnv) (xf : Fin 6 → ℚ) (rw : rawDetails)
    (wbR : ℕ → ℚ) (buf : List ℕ) (w y : ℕ) : ℕ → ℕ → PixBuf → Option PixBuf
  | 0, _, b => some b
  | fuel + 1, x, b =>
    if x < w then do
      let b ← crawBlock env xf rw wbR buf y (y * w + x) b
      crawChannelRow env xf rw wbR buf w y fuel (x + 32) b
    else some b

/-- The outer row loop of `readCRAW`'s channel pass (lines 240-288). -/
def crawChannelRows (env : CrawEnv) (xf : Fin 6 → ℚ) (rw : rawDetails)
    (wbR : ℕ → ℚ) (buf : List ℕ) (w h : ℕ) : ℕ → ℕ → PixBuf → Option PixBuf
  | 0, _, b => some b
  | fuel + 1, y, b =>
    if y < h then do
      let b ← crawChannelRow env xf rw wbR buf w y w 0 b
      crawChannelRows env xf rw wbR buf w h fuel (y + 1) b
    else some b

/-- The channel-write pass of `readCRAW` (lines 212-288): fit the gamma
coefficients from the four extracted curve points, compute the
white-balance ratios, then run the block loops over the raster. -/
def crawChannelPass (env : CrawEnv) (rw : rawDetails) (buf : List ℕ)
    (b : PixBuf) : Option PixBuf :=
  crawChannelRows env
    (env.solve [rw.gammaCurve.getD 0 0, rw.gammaCurve.getD 1 0,
      rw.gammaCurve.getD 2 0, rw.gammaCurve.getD 3 0])
    rw (whiteBalanceRGGB rw.WhiteBalance) buf rw.width rw.height rw.height 0 b

/-- `readCRAW` (lines 209-309): allocate the raster, run the channel-write
pass, then the neighbor-fill pass. -/
def readCRAW (env : CrawEnv) (buf : List ℕ) (rw : rawDetails) : Option RGB14 :=
  let img := NewRGB14 rw.width rw.height
  do
    let b ← crawChannelPass env rw buf img.Pix
    let b ← crawFillPass rw.width rw.width rw.height b
    pure { img with Pix := b }

/-- One column pair of `readraw14`'s even channel row (lines 349-358):
R corrected with channel 0, G with channel 1.  `data` is the pixel payload
viewed as 16-bit samples (the source's in-place pointer reinterpretation of
the byte buffer is a memory-layout operation; the embedding takes the
resulting sample sequence directly, reads out of range being the Go
panic). -/
def linChanTopPair (xf : Fin 6 → ℚ) (rw : rawDetails) (wbR : ℕ → ℚ)
    (data : List ℕ) (w y x : ℕ) (b : PixBuf) : Option PixBuf := do
  let v1 ← data.get? (y * w + x)
  let b ← pixWrite b (y * w + x)
    (fun p => { p with R := trunc16 (process xf v1 (rw.blackLevel.getD 0 0) (wbR 0)) })
  let v2 ← data.get? (y * w + x + 1)
  let b ← pixWrite b (y * w + x + 1)
    (fun p => { p with G := trunc16 (process xf v2 (rw.blackLevel.getD 1 0) (wbR 1)) })
  pure b

/-- One column pair of `readraw14`'s odd channel row (lines 361-370):
G corrected with channel 2, B with channel 3. -/
def linChanBotPair (xf : Fin 6 → ℚ) (rw : rawDetails) (wbR : ℕ → ℚ)
    (data : List ℕ) (w y x : ℕ) (b : PixBuf) : Option PixBuf := do
  let v1 ← data.get? (y * w + x)
  let b ← pixWrite b (y * w + x)
    (fun p => { p with G := trunc16 (process xf v1 (rw.blackLevel.getD 2 0) (wbR 2)) })
  let v2 ← data.get? (y * w + x + 1)
  let b ← pixWrite b (y * w + x + 1)
    (fun p => { p with B := trunc16 (process xf v2 (rw.blackLevel.getD 3 0) (wbR 3)) })
  pure b

/-- The even-row column loop of `readraw14`'s channel pass (lines 349-358). -/
def linChanRowTop (xf : Fin 6 → ℚ) (rw : rawDetails) (wbR : ℕ → ℚ)
    (data : List ℕ) (w y : ℕ) : ℕ → ℕ → PixBuf → Option PixBuf
  | 0, _, b => some b
  | fuel + 1, x, b =>
    if x < w then do
      let b ← linChanTopPair xf rw wbR data w y x b
      linChanRowTop xf rw wbR data w y fuel (x + 2) b
    else some b

/-- The odd-row column loop of `readraw14`'s channel pass (lines 361-370). -/
def linChanRowBot (xf : Fin 6 → ℚ) (rw : rawDetails) (wbR : ℕ → ℚ)
    (data : List ℕ) (w y : ℕ) : ℕ → ℕ → PixBuf → Option PixBuf
  | 0, _, b => some b
  | fuel + 1, x, b =>
    if x < w then do
      let b ← linChanBotPair xf rw wbR data w y x b
      linChanRowBot xf rw wbR data w y fuel (x + 2) b
    else some b

/-- The outer row loop of `readraw14`'s channel pass (lines 348-371),
advancing two rows per iteration. -/
def linChanRows (xf : Fin 6 → ℚ) (rw : rawDetails) (wbR : ℕ → ℚ)
    (data : List ℕ) (w h : ℕ) : ℕ → ℕ → PixBuf → Option PixBuf
  | 0, _, b => some b
  | fuel + 1, y, b =>
    if y < h then do
      let b ← linChanRowTop xf rw wbR data w y w 0 b
      let b ← linChanRowBot xf rw wbR data w (y + 1) w 0 b
      linChanRows xf rw wbR data w h fuel (y + 2) b
    else some b

/-- `readraw14` (lines 311-393): allocate the raster, run the linear
channel-write pass (channel indices 0/1 on even rows, 2/3 on odd rows),
then its copy of the neighbor-fill pass. -/
def readraw14 (env : CrawEnv) (data : List ℕ) (rw : rawDetails) : Option RGB14 :=
  let img := NewRGB14 rw.width rw.height
  let xf := env.solve [rw.gammaCurve.getD 0 0, rw.gammaCurve.getD 1 0,
    rw.gammaCurve.getD 2 0, rw.gammaCurve.getD 3 0]
  let wbR := whiteBalanceRGGB rw.WhiteBalance
  do
    let b ← linChanRows xf rw wbR data rw.width rw.height rw.height 0 img.Pix
    let b ← linFillPass rw.width rw.width rw.height b
    pure { img with Pix := b }

/-! ### Characterisation of the compressed channel pass (width 32) -/

/-- Raster contents after the interleaving write loop ran from index `i0`:
slots `base + 2i` get `setA _ (av i)`, slots `base + 2i + 1` get
`setB _ (bv i)`, everything else is untouched.  The written values do not
read the raster beyond the cell being updated. -/
def pairsVal (setA setB : pixel16 → ℕ → pixel16) (av bv : ℕ → ℕ)
    (base i0 : ℕ) (P : ℕ → pixel16) (j : ℕ) : pixel16 :=
  if base + i0 * 2 ≤ j ∧ j < base + 16 * 2 then
    if (j - base) % 2 = 0 then setA (P j) (av ((j - base) / 2))
    else setB (P j) (bv ((j - base) / 2))
  else P j

/-- Raster contents after one block wrote row `y` (stride 32): even rows
interleave R/G, odd rows G/B, both corrected with channel indices 0 and 1. -/
def crawRowVal (env : CrawEnv) (xf : Fin 6 → ℚ) (rw : rawDetails)
    (wbR : ℕ → ℚ) (buf : List ℕ) (y : ℕ) (P : ℕ → pixel16) (j : ℕ) : pixel16 :=
  if y % 2 = 0 then
    pairsVal setRv setGv
      (fun i => trunc16 (process xf (env.decomp ((buf.drop (y * 32 + 0)).take pixelBlockSize) i)
        (rw.blackLevel.getD 0 0) (wbR 0)))
      (fun i => trunc16 (process xf (env.decomp ((buf.drop (y * 32 + 0 + pixelBlockSize)).take pixelBlockSize) i)
        (rw.blackLevel.getD 1 0) (wbR 1)))
      (y * 32 + 0) 0 P j
  else
    pairsVal setGv setBv
      (fun i => trunc16 (process xf (env.decomp ((buf.drop (y * 32 + 0)).take pixelBlockSize) i)
        (rw.blackLevel.getD 0 0) (wbR 0)))
      (fun i => trunc16 (process xf (env.decomp ((buf.drop (y * 32 + 0 + pixelBlockSize)).take pixelBlockSize) i)
        (rw.blackLevel.getD 1 0) (wbR 1)))
      (y * 32 + 0) 0 P j

/-- Raster contents after the channel pass processed all rows from `y0`. -/
def chanVal (env : CrawEnv) (xf : Fin 6 → ℚ) (rw : rawDetails)
    (wbR : ℕ → ℚ) (buf : List ℕ) (h y0 : ℕ) (P : ℕ → pixel16) (j : ℕ) : pixel16 :=
  if y0 * 32 ≤ j ∧ j < h * 32 then crawRowVal env xf rw wbR buf (j / 32) P j
  else P j

/-- A 32×2 parameter set for exercising the channel pass on one block per
row. -/
def rwC10 : rawDetails := { rawDetails.init with width := 32, height := 2 }

/-- Concrete oracles: decompression returns the byte at the sample index,
the curve fit is the zero polynomial. -/
def envC10 : CrawEnv := ⟨fun bs i => bs.getD i 0, fun _ _ => 0⟩

/-- A 64-byte zero payload (two blocks of two 16-byte groups). -/
def bufC10 : List ℕ := List.replicate 64 0

/-- A zeroed 64-cell raster slice. -/
def pbC10 : PixBuf := ⟨64, fun _ => ⟨0, 0, 0, 0⟩⟩

/-- C3: for every sample, black level, white-balance ratio and coefficient
vector, the source corrector `process` computes exactly the function claim
C3 describes: pass-through at or below the black level, otherwise the
unsigned truncation of `1.596472423` times the (ceiling-clamped) degree-5
polynomial of the normalised, white-balanced difference. -/
theorem process_matches_claim (c : Fin 6 → ℚ) (sample black : ℕ) (wbRatio : ℚ) :
    process c sample black wbRatio = correctClaim c sample black wbRatio := by
  by_cases hsb : sample ≤ black
  · simp [process, correctClaim, hsb]
  · have hcast : ((sample - black : ℕ) : ℚ) = (sample : ℚ) - (black : ℚ) :=
      Nat.cast_sub (not_le.mp hsb).le
    simp only [process, correctClaim, if_neg hsb, hcast]
    by_cases hc : ((sample : ℚ) - (black : ℚ)) * wbRatio > 0x3fff
    · simp only [gamma, gammaspace, if_pos hc]
    · have hv0 : ((0 : Fin 6) : ℕ) = 0 := rfl
      have hv1 : ((1 : Fin 6) : ℕ) = 1 := rfl
      have hv2 : ((2 : Fin 6) : ℕ) = 2 := rfl
      have hv3 : ((3 : Fin 6) : ℕ) = 3 := rfl
      have hv4 : ((4 : Fin 6) : ℕ) = 4 := rfl
      have hv5 : ((5 : Fin 6) : ℕ) = 5 := rfl
      simp only [gamma, gammaspace, if_neg hc, polyPowers, Fin.sum_univ_six,
        hv0, hv1, hv2, hv3, hv4, hv5]
      congr 1
      ring

/-- C8 counterexample: the corrector is not monotone for every coefficient
vector.  With the decreasing fit `16000 - t`, black level 0 and ratio 1,
sample 1 corrects to 25543 while the larger sample 3276 corrects to
25541. -/
theorem process_monotone_cex :
    ¬ ∀ (xf : Fin 6 → ℚ) (black : ℕ) (wb : ℚ) (s1 s2 : ℕ),
        black < s1 → s1 ≤ s2 →
          process xf s1 black wb ≤ process xf s2 black wb := by
  intro hall
  have h := hall xfCex 0 1 1 3276 (by omega) (by omega)
  have g1 : gamma xfCex (((1 - 0 : ℕ) : ℚ) * 1) = 16000 - 1 / 3276 := by
    simp only [gamma]
    rw [if_neg (by norm_num)]
    have h5 : xfCex 5 = 0 := rfl
    have h4 : xfCex 4 = 0 := rfl
    have h3 : xfCex 3 = 0 := rfl
    have h2 : xfCex 2 = 0 := rfl
    have h1 : xfCex 1 = -1 := rfl
    have h0 : xfCex 0 = 16000 := rfl
    rw [h5, h4, h3, h2, h1, h0]
    norm_num
  have g2 : gamma xfCex (((3276 - 0 : ℕ) : ℚ) * 1) = 15999 := by
    simp only [gamma]
    rw [if_neg (by norm_num)]
    have h5 : xfCex 5 = 0 := rfl
    have h4 : xfCex 4 = 0 := rfl
    have h3 : xfCex 3 = 0 := rfl
    have h2 : xfCex 2 = 0 := rfl
    have h1 : xfCex 1 = -1 := rfl
    have h0 : xfCex 0 = 16000 := rfl
    rw [h5, h4, h3, h2, h1, h0]
    norm_num
  have e1 : process xfCex 1 0 1 = 25543 := by
    simp only [process, if_neg (by omega : ¬ (1 : ℕ) ≤ 0), g1, truncU, gammaspace]
    have hfl : (⌊((16000 - 1 / 3276 : ℚ)) * 1.596472423⌋ : ℤ) = 25543 := by norm_num
    rw [hfl]
    rfl
  have e2 : process xfCex 3276 0 1 = 25541 := by
    simp only [process, if_neg (by omega : ¬ (3276 : ℕ) ≤ 0), g2, truncU, gammaspace]
    have hfl : (⌊((15999 : ℚ)) * 1.596472423⌋ : ℤ) = 25541 := by norm_num
    rw [hfl]
    rfl
  omega

/-- The identity-shaped gamma curve evaluates to its input below the
ceiling. -/
theorem gamma_xfIdent_eval (x : ℚ) (hx : ¬ x > 0x3fff) : gamma xfIdent x = x := by
  simp only [gamma, if_neg hx]
  have h5 : xfIdent 5 = 0 := rfl
  have h4 : xfIdent 4 = 0 := rfl
  have h3 : xfIdent 3 = 0 := rfl
  have h2 : xfIdent 2 = 0 := rfl
  have h1 : xfIdent 1 = 0xCCC := rfl
  have h0 : xfIdent 0 = 0 := rfl
  rw [h5, h4, h3, h2, h1, h0]
  field_simp

/-- The identity-shaped gamma curve is monotone on nonnegative inputs. -/
theorem gamma_xfIdent_mono :
    ∀ x y : ℚ, 0 ≤ x → x ≤ y → gamma xfIdent x ≤ gamma xfIdent y := by
  intro x y _ hxy
  by_cases hy : y > 0x3fff
  · by_cases hx3 : x > 0x3fff
    · simp [gamma, if_pos hx3, if_pos hy]
    · rw [gamma_xfIdent_eval x hx3]
      simp only [gamma, if_pos hy]
      exact not_lt.mp hx3
  · have hx3 : ¬ x > 0x3fff := fun hgt => hy (lt_of_lt_of_le hgt hxy)
    rw [gamma_xfIdent_eval x hx3, gamma_xfIdent_eval y hy]
    exact hxy

/-- C8 amended: for fixed black level, nonnegative white-balance ratio and a
coefficient vector whose gamma curve is monotone non-decreasing on
nonnegative inputs, the corrector `process` is monotone non-decreasing in
the sample for all samples strictly above the black level. -/
theorem process_mono_of_gamma_mono (xf : Fin 6 → ℚ) (black : ℕ) (wb : ℚ)
    (hwb : 0 ≤ wb)
    (hmono : ∀ x y : ℚ, 0 ≤ x → x ≤ y → gamma xf x ≤ gamma xf y)
    (s1 s2 : ℕ) (hb : black < s1) (hs : s1 ≤ s2) :
    process xf s1 black wb ≤ process xf s2 black wb := by
  have h1 : ¬ s1 ≤ black := by omega
  have h2 : ¬ s2 ≤ black := by omega
  simp only [process, if_neg h1, if_neg h2, truncU]
  have key : gamma xf (((s1 - black : ℕ) : ℚ) * wb)
      ≤ gamma xf (((s2 - black : ℕ) : ℚ) * wb) := by
    refine hmono _ _ (mul_nonneg (Nat.cast_nonneg _) hwb)
      (mul_le_mul_of_nonneg_right ?_ hwb)
    exact_mod_cast Nat.sub_le_sub_right hs black
  have key2 := mul_le_mul_of_nonneg_right key
    (le_of_lt (by norm_num [gammaspace] : (0 : ℚ) < gammaspace))
  exact Int.toNat_le_toNat (Int.floor_le_floor key2)

/-- Witness for the amended C8 theorem at a concrete input: white-balance
ratio 1, black level 0, the identity-shaped curve, samples 100 ≤ 200. -/
theorem process_mono_witness :
    (0 : ℚ) ≤ 1 ∧ 0 < 100 ∧ 100 ≤ 200 ∧
      process xfIdent 100 0 1 ≤ process xfIdent 200 0 1 :=
  ⟨zero_le_one, by decide, by decide,
    process_mono_of_gamma_mono xfIdent 0 1 zero_le_one gamma_xfIdent_mono 100 200
      (by decide) (by decide)⟩

/-- C9: the error returned by `ParseHeader` is never surfaced — `err` is
overwritten by the following `ExtractMetaData` call (lines 33-34) — and
extraction proceeds with the returned (possibly invalid) header offset, so
`extractDetails` behaves identically whether or not the header parse
failed. -/
theorem extractDetails_ignores_header_error
    (hdr : TIFFHeader) (e : ArwError)
    (extractMeta : ℕ → Except ArwError IFD) (decryptSR2 : ℕ → ℕ → List ℕ)
    (parseSR2 : List ℕ → Except ArwError IFD) :
    extractDetails (hdr, some e) extractMeta decryptSR2 parseSR2 =
      extractDetails (hdr, none) extractMeta decryptSR2 parseSR2 := rfl

/-- C1 (code bug): when the decrypted private sub-tree's buffer fails to
parse as a tag list, `extractDetails` does NOT return a propagated
`FormatError`: line 117 calls `log.Fatal`, terminating the process.  The
spec (§7) itself records that the reference stops execution here. -/
theorem extractDetails_fatal_on_sr2_parse_failure :
    extractDetails (⟨0⟩, none) metaOracleC1 (fun _ _ => [])
      (fun _ => .error (.format 5)) = .fatal (.format 5) := by decide

/-- C2 (code bug): a top-level tag list with no `SubIFDs` pointer makes
`extractDetails` return the zero-valued `rawDetails` together with a `nil`
error (line 133), not a `FormatError`: no tag of the loop matches, so the
zero value of line 31 is returned as if extraction had succeeded. -/
theorem extractDetails_zero_on_missing_subIFD :
    extractDetails (⟨0⟩, none)
      (fun off => if off = 0 then .ok ⟨[⟨ImageWidth, 500, [], []⟩]⟩ else .error (.io 3))
      (fun _ _ => []) (fun _ => .error (.format 5)) = .ok rawDetails.init := by decide

/-- C6 (code bug): the repeat-pattern-dimension unpack multiplies by the
masks instead of masking, so for the packed value `0x00020002` (a 2×2
repeat tile) the source computes `(0xfffe, 0xfffe)` where the claimed
low/high 16-bit extraction yields `(2, 2)`. -/
theorem cfaDimUnpack_bug :
    cfaDimUnpack 0x00020002 = (0xfffe, 0xfffe) ∧
      cfaDimClaim 0x00020002 = (2, 2) ∧
      cfaDimUnpack 0x00020002 ≠ cfaDimClaim 0x00020002 :=
  ⟨by decide, by decide, by decide⟩

/-- C7: the standard-color-model conversion returns each of R, G, B
multiplied by `2^2` (the left shift by 2 bits), reduced mod `2^16` (the
shift happens at 16-bit width), and a constant alpha of `0xffff`; the
conversion is a pure function of the cell, so reading a pixel leaves the
raster unchanged (the embedding is stateless by construction). -/
theorem RGBA_matches_claim (c : pixel16) :
    c.RGBA = ((c.R * 2 ^ 2) % 2 ^ 16, (c.G * 2 ^ 2) % 2 ^ 16,
      (c.B * 2 ^ 2) % 2 ^ 16, 0xffff) := by
  simp [pixel16.RGBA, Nat.shiftLeft_eq]

/-- C5 (code bug): the neighbor-fill pass contains no bounds checks.  On a
3×2 raster (odd width) the even-row loop reads flat index 6 of the 6-cell
slice (`(y+1)*Stride+x+1` at `y = 0`, `x = 2`), past the allocated `w*h`
array — a Go index panic — after silently wrapping the `x+1` read of the
last column into the next row; on a 2×3 raster (odd height) the final row
pair reads and writes row 3.  Both strategies' copies of the pass fail
identically. -/
theorem fill_pass_out_of_bounds :
    crawFillPass 3 3 2 ⟨6, fun _ => ⟨0, 0, 0, 0⟩⟩ = none ∧
      crawFillPass 2 2 3 ⟨6, fun _ => ⟨0, 0, 0, 0⟩⟩ = none ∧
      linFillPass 3 3 2 ⟨6, fun _ => ⟨0, 0, 0, 0⟩⟩ = none ∧
      linFillPass 2 2 3 ⟨6, fun _ => ⟨0, 0, 0, 0⟩⟩ = none :=
  ⟨rfl, rfl, rfl, rfl⟩

/-- Reduction of `>>=` on a `some` for the `Option` monad. -/
theorem optBind_some {A B : Type} (a : A) (f : A → Option B) :
    (some a >>= f) = f a := rfl

/-- Division and remainder of an in-row flat index. -/
theorem row_divmod (w y j : ℕ) (h1 : y * w ≤ j) (h2 : j < y * w + w) :
    j / w = y ∧ j % w = j - y * w := by
  have hw0 : 0 < w := by omega
  obtain ⟨r, hr, rfl⟩ : ∃ r, r < w ∧ j = r + y * w := ⟨j - y * w, by omega, by omega⟩
  constructor
  · rw [Nat.add_mul_div_right _ _ hw0, Nat.div_eq_of_lt hr]
    omega
  · rw [Nat.add_mul_mod_self_right, Nat.mod_eq_of_lt hr]
    omega

/-- `topTileVal` only reads `P` at its three source cells and at `j`. -/
theorem topTileVal_congr (s y x : ℕ) (P Q : ℕ → pixel16) (j : ℕ)
    (hA : P (y * s + x) = Q (y * s + x)) (hB : P (y * s + x + 1) = Q (y * s + x + 1))
    (hC : P ((y + 1) * s + x + 1) = Q ((y + 1) * s + x + 1)) (hj : P j = Q j) :
    topTileVal s y x P j = topTileVal s y x Q j := by
  rw [topTileVal, topTileVal, hA, hB, hC, hj]

/-- Cells other than the column pair are untouched by `topTileVal`. -/
theorem topTileVal_outside (s y x : ℕ) (P : ℕ → pixel16) (j : ℕ)
    (hA : ¬ j = y * s + x) (hB : ¬ j = y * s + x + 1) :
    topTileVal s y x P j = P j := by
  rw [topTileVal, if_neg hA, if_neg hB]

/-- `botTileVal` only reads `P` at its three source cells and at `j`. -/
theorem botTileVal_congr (s y x : ℕ) (P Q : ℕ → pixel16) (j : ℕ)
    (hA : P ((y - 1) * s + x) = Q ((y - 1) * s + x))
    (hB : P (y * s + x) = Q (y * s + x)) (hC : P (y * s + x + 1) = Q (y * s + x + 1))
    (hj : P j = Q j) :
    botTileVal s y x P j = botTileVal s y x Q j := by
  rw [botTileVal, botTileVal, hA, hB, hC, hj]

/-- Cells other than the column pair are untouched by `botTileVal`. -/
theorem botTileVal_outside (s y x : ℕ) (P : ℕ → pixel16) (j : ℕ)
    (hA : ¬ j = y * s + x) (hB : ¬ j = y * s + x + 1) :
    botTileVal s y x P j = P j := by
  rw [botTileVal, if_neg hA, if_neg hB]

/-- The four even-row statements compute `topTileVal`. -/
theorem crawFillTopTile_spec (s y x : ℕ) (b : PixBuf) (hs : 0 < s)
    (h1 : y * s + x + 1 < b.len) (h2 : (y + 1) * s + x + 1 < b.len) :
    crawFillTopTile s y x b = some ⟨b.len, topTileVal s y x b.val⟩ := by
  have e1 : (y + 1) * s = y * s + s := by ring
  have hd : y * s + x < b.len := by omega
  have d1 : ¬ (y * s + x = y * s + x + 1) := by omega
  have d2 : ¬ (y * s + x + 1 = y * s + x) := by omega
  have d3 : ¬ ((y + 1) * s + x + 1 = y * s + x) := by omega
  have d4 : ¬ ((y + 1) * s + x + 1 = y * s + x + 1) := by omega
  simp only [crawFillTopTile, copyG, copyB, copyR, pixRead, pixWrite,
    if_pos h1, if_pos h2, if_pos hd, optBind_some, Option.pure_def]
  refine congrArg some ?_
  refine congrArg (PixBuf.mk b.len) ?_
  funext j
  by_cases hj1 : j = y * s + x
  · subst hj1
    simp [topTileVal, d1, d2, d3, d4]
  · by_cases hj2 : j = y * s + x + 1
    · subst hj2
      simp [topTileVal, d1, d2, d3, d4]
    · simp [topTileVal, hj1, hj2]

/-- The four odd-row statements compute `botTileVal`. -/
theorem crawFillBotTile_spec (s y x : ℕ) (b : PixBuf) (hs : 0 < s) (hy : 1 ≤ y)
    (h1 : y * s + x + 1 < b.len) :
    crawFillBotTile s y x b = some ⟨b.len, botTileVal s y x b.val⟩ := by
  have e2 : (y - 1) * s + s = y * s := by
    have hyy := Nat.sub_add_cancel hy
    calc (y - 1) * s + s = ((y - 1) + 1) * s := by ring
      _ = y * s := by rw [hyy]
  have hr : (y - 1) * s + x < b.len := by omega
  have hd0 : y * s + x < b.len := by omega
  have d1 : ¬ (y * s + x = y * s + x + 1) := by omega
  have d2 : ¬ (y * s + x + 1 = y * s + x) := by omega
  have d3 : ¬ ((y - 1) * s + x = y * s + x) := by omega
  have d4 : ¬ ((y - 1) * s + x = y * s + x + 1) := by omega
  simp only [crawFillBotTile, copyG, copyB, copyR, pixRead, pixWrite,
    if_pos h1, if_pos hr, if_pos hd0, optBind_some, Option.pure_def]
  refine congrArg some ?_
  refine congrArg (PixBuf.mk b.len) ?_
  funext j
  by_cases hj1 : j = y * s + x
  · subst hj1
    simp [botTileVal, d1, d2, d3, d4]
  · by_cases hj2 : j = y * s + x + 1
    · subst hj2
      simp [botTileVal, d1, d2, d3, d4]
    · simp [botTileVal, hj1, hj2]

/-- Advancing the even-row loop by one column pair. -/
theorem topRowVal_step (w y x0 : ℕ) (P : ℕ → pixel16)
    (hw : w % 2 = 0) (hx0 : x0 % 2 = 0) (hxw : x0 < w) (j : ℕ) :
    topRowVal w y (x0 + 2) (topTileVal w y x0 P) j = topRowVal w y x0 P j := by
  have ew1 : (y + 1) * w = y * w + w := by ring
  by_cases hin : y * w + x0 ≤ j ∧ j < y * w + w
  · by_cases hj2 : j < y * w + x0 + 2
    · have hxe : 2 * ((j - y * w) / 2) = x0 := by omega
      rw [topRowVal, if_neg (by omega), topRowVal, if_pos hin, hxe]
    · rw [topRowVal, if_pos (by omega), topRowVal, if_pos hin]
      refine topTileVal_congr w y _ _ _ j ?_ ?_ ?_ ?_ <;>
        exact topTileVal_outside w y x0 P _ (by omega) (by omega)
  · rw [topRowVal, if_neg (by omega), topRowVal, if_neg hin]
    exact topTileVal_outside w y x0 P j (by omega) (by omega)

/-- Advancing the odd-row loop by one column pair. -/
theorem botRowVal_step (w y x0 : ℕ) (P : ℕ → pixel16)
    (hw : w % 2 = 0) (hx0 : x0 % 2 = 0) (hxw : x0 < w) (hy : 1 ≤ y) (j : ℕ) :
    botRowVal w y (x0 + 2) (botTileVal w y x0 P) j = botRowVal w y x0 P j := by
  have e2 : (y - 1) * w + w = y * w := by
    have hyy := Nat.sub_add_cancel hy
    calc (y - 1) * w + w = ((y - 1) + 1) * w := by ring
      _ = y * w := by rw [hyy]
  by_cases hin : y * w + x0 ≤ j ∧ j < y * w + w
  · by_cases hj2 : j < y * w + x0 + 2
    · have hxe : 2 * ((j - y * w) / 2) = x0 := by omega
      rw [botRowVal, if_neg (by omega), botRowVal, if_pos hin, hxe]
    · rw [botRowVal, if_pos (by omega), botRowVal, if_pos hin]
      refine botTileVal_congr w y _ _ _ j ?_ ?_ ?_ ?_ <;>
        exact botTileVal_outside w y x0 P _ (by omega) (by omega)
  · rw [botRowVal, if_neg (by omega), botRowVal, if_neg hin]
    exact botTileVal_outside w y x0 P j (by omega) (by omega)

/-- The even-row column loop computes `topRowVal`. -/
theorem crawFillRowTop_spec (w y : ℕ) (hw : w % 2 = 0) :
    ∀ (fuel x0 : ℕ) (b : PixBuf), x0 % 2 = 0 → w ≤ x0 + 2 * fuel →
      (y + 2) * w ≤ b.len →
      ∃ c, crawFillRowTop w w y fuel x0 b = some c ∧ c.len = b.len ∧
        ∀ j, c.val j = topRowVal w y x0 b.val j := by
  intro fuel
  induction fuel with
  | zero =>
    intro x0 b hx0 hfuel hlen
    refine ⟨b, rfl, rfl, fun j => ?_⟩
    rw [topRowVal, if_neg (by omega)]
  | succ n ih =>
    intro x0 b hx0 hfuel hlen
    by_cases hxw : x0 < w
    · have ew2 : (y + 2) * w = y * w + w + w := by ring
      have ew1 : (y + 1) * w = y * w + w := by ring
      have hb1 : y * w + x0 + 1 < b.len := by omega
      have hb2 : (y + 1) * w + x0 + 1 < b.len := by omega
      have hwpos : 0 < w := by omega
      obtain ⟨c, hc, hclen, hcval⟩ :=
        ih (x0 + 2) ⟨b.len, topTileVal w y x0 b.val⟩ (by omega) (by omega) hlen
      refine ⟨c, ?_, hclen, fun j => ?_⟩
      · show crawFillRowTop w w y (n + 1) x0 b = some c
        simp only [crawFillRowTop]
        rw [if_pos hxw, crawFillTopTile_spec w y x0 b hwpos hb1 hb2, optBind_some]
        exact hc
      · rw [hcval j]
        exact topRowVal_step w y x0 b.val hw hx0 hxw j
    · refine ⟨b, ?_, rfl, fun j => ?_⟩
      · simp only [crawFillRowTop]
        rw [if_neg hxw]
      · rw [topRowVal, if_neg (by omega)]

/-- The odd-row column loop computes `botRowVal`. -/
theorem crawFillRowBot_spec (w y : ℕ) (hw : w % 2 = 0) (hy : 1 ≤ y) :
    ∀ (fuel x0 : ℕ) (b : PixBuf), x0 % 2 = 0 → w ≤ x0 + 2 * fuel →
      (y + 1) * w ≤ b.len →
      ∃ c, crawFillRowBot w w y fuel x0 b = some c ∧ c.len = b.len ∧
        ∀ j, c.val j = botRowVal w y x0 b.val j := by
  intro fuel
  induction fuel with
  | zero =>
    intro x0 b hx0 hfuel hlen
    refine ⟨b, rfl, rfl, fun j => ?_⟩
    rw [botRowVal, if_neg (by omega)]
  | succ n ih =>
    intro x0 b hx0 hfuel hlen
    by_cases hxw : x0 < w
    · have ew1 : (y + 1) * w = y * w + w := by ring
      have hb1 : y * w + x0 + 1 < b.len := by omega
      have hwpos : 0 < w := by omega
      obtain ⟨c, hc, hclen, hcval⟩ :=
        ih (x0 + 2) ⟨b.len, botTileVal w y x0 b.val⟩ (by omega) (by omega) hlen
      refine ⟨c, ?_, hclen, fun j => ?_⟩
      · show crawFillRowBot w w y (n + 1) x0 b = some c
        simp only [crawFillRowBot]
        rw [if_pos hxw, crawFillBotTile_spec w y x0 b hwpos hy hb1, optBind_some]
        exact hc
      · rw [hcval j]
        exact botRowVal_step w y x0 b.val hw hx0 hxw hy j
    · refine ⟨b, ?_, rfl, fun j => ?_⟩
      · simp only [crawFillRowBot]
        rw [if_neg hxw]
      · rw [botRowVal, if_neg (by omega)]

/-- A row pair leaves cells outside its two rows untouched. -/
theorem pairRowVal_outside (w y0 : ℕ) (P : ℕ → pixel16) (i : ℕ)
    (h1 : ¬ (y0 * w + 0 ≤ i ∧ i < y0 * w + w))
    (h2 : ¬ ((y0 + 1) * w + 0 ≤ i ∧ i < (y0 + 1) * w + w)) :
    botRowVal w (y0 + 1) 0 (topRowVal w y0 0 P) i = P i := by
  rw [botRowVal, if_neg h2, topRowVal, if_neg h1]

/-- `fillVal` only reads `P` at the four corner cells of `j`'s tile and at
`j` itself. -/
theorem fillVal_congr (w h : ℕ) (P Q : ℕ → pixel16) (j : ℕ)
    (h1 : P (2 * (j / w / 2) * w + 2 * (j % w / 2)) = Q (2 * (j / w / 2) * w + 2 * (j % w / 2)))
    (h2 : P (2 * (j / w / 2) * w + 2 * (j % w / 2) + 1) = Q (2 * (j / w / 2) * w + 2 * (j % w / 2) + 1))
    (h3 : P ((2 * (j / w / 2) + 1) * w + 2 * (j % w / 2)) = Q ((2 * (j / w / 2) + 1) * w + 2 * (j % w / 2)))
    (h4 : P ((2 * (j / w / 2) + 1) * w + 2 * (j % w / 2) + 1) = Q ((2 * (j / w / 2) + 1) * w + 2 * (j % w / 2) + 1))
    (hj : P j = Q j) :
    fillVal w h P j = fillVal w h Q j := by
  rw [fillVal, fillVal, h1, h2, h3, h4, hj]

/-- The even row of a processed pair reads untouched source values. -/
theorem topRowVal_R (w y0 xe : ℕ) (P : ℕ → pixel16)
    (hxe : xe % 2 = 0) (hlt : xe < w) :
    (topRowVal w y0 0 P (y0 * w + xe)).R = (P (y0 * w + xe)).R := by
  have h1 : y0 * w + xe - y0 * w = xe := by omega
  have h2 : 2 * (xe / 2) = xe := by omega
  rw [topRowVal, if_pos (by omega), h1, h2, topTileVal, if_pos rfl]

/-- Processing the row pair at `y0` advances `rowsVal` from `y0` to
`y0 + 2`. -/
theorem rowsVal_step (w h y0 : ℕ) (P : ℕ → pixel16)
    (hw : w % 2 = 0) (hh : h % 2 = 0) (hy0 : y0 % 2 = 0) (hy0h : y0 < h) (j : ℕ) :
    rowsVal w h (y0 + 2) (botRowVal w (y0 + 1) 0 (topRowVal w y0 0 P)) j
      = rowsVal w h y0 P j := by
  rcases Nat.eq_zero_or_pos w with hw0 | hw0
  · subst hw0
    simp [rowsVal, fillVal, botRowVal, topRowVal]
  · have ew1 : (y0 + 1) * w = y0 * w + w := by ring
    have ew2 : (y0 + 2) * w = y0 * w + w + w := by ring
    by_cases hA : j < y0 * w
    · rw [rowsVal, if_neg (by omega), rowsVal, if_neg (by omega)]
      exact pairRowVal_outside w y0 P j (by omega) (by omega)
    · by_cases hB : j < (y0 + 1) * w
      · -- j lies in row y0
        have hmul1 : (y0 + 1) * w ≤ h * w := Nat.mul_le_mul_right w (by omega)
        obtain ⟨hdiv, hmod⟩ := row_divmod w y0 j (by omega) (by omega)
        rw [rowsVal, if_neg (by omega), rowsVal, if_pos (by omega)]
        rw [botRowVal, if_neg (by omega), topRowVal, if_pos (by omega)]
        rw [fillVal, if_pos (show j < h * w ∧ 0 < w by omega), hdiv, hmod]
        have hye : 2 * (y0 / 2) = y0 := by omega
        rw [hye, if_pos (show y0 % 2 = 0 from hy0)]
        have hcase : j = y0 * w + 2 * ((j - y0 * w) / 2)
            ∨ j = y0 * w + 2 * ((j - y0 * w) / 2) + 1 := by omega
        rcases hcase with hc | hc
        · rw [topTileVal, if_pos hc,
            show P j = P (y0 * w + 2 * ((j - y0 * w) / 2)) from congrArg P hc]
        · rw [topTileVal, if_neg (by omega), if_pos hc,
            show P j = P (y0 * w + 2 * ((j - y0 * w) / 2) + 1) from congrArg P hc]
      · by_cases hC : j < (y0 + 2) * w
        · -- j lies in row y0 + 1
          have hmul2 : (y0 + 2) * w ≤ h * w := Nat.mul_le_mul_right w (by omega)
          obtain ⟨hdiv, hmod⟩ := row_divmod w (y0 + 1) j (by omega) (by omega)
          rw [rowsVal, if_neg (by omega), rowsVal, if_pos (by omega)]
          rw [botRowVal, if_pos (by omega)]
          rw [fillVal, if_pos (show j < h * w ∧ 0 < w by omega), hdiv, hmod]
          have hye : 2 * ((y0 + 1) / 2) = y0 := by omega
          rw [hye, if_neg (show ¬ (y0 + 1) % 2 = 0 by omega)]
          have hxelt : 2 * ((j - (y0 + 1) * w) / 2) < w := by omega
          have hxee : (2 * ((j - (y0 + 1) * w) / 2)) % 2 = 0 := by omega
          have hsub : y0 + 1 - 1 = y0 := rfl
          have hQ1b : topRowVal w y0 0 P ((y0 + 1) * w + 2 * ((j - (y0 + 1) * w) / 2))
              = P ((y0 + 1) * w + 2 * ((j - (y0 + 1) * w) / 2)) := by
            rw [topRowVal, if_neg (by omega)]
          have hQ1c : topRowVal w y0 0 P ((y0 + 1) * w + 2 * ((j - (y0 + 1) * w) / 2) + 1)
              = P ((y0 + 1) * w + 2 * ((j - (y0 + 1) * w) / 2) + 1) := by
            rw [topRowVal, if_neg (by omega)]
          have hQ1j : topRowVal w y0 0 P j = P j := by
            rw [topRowVal, if_neg (by omega)]
          have hcase : j = (y0 + 1) * w + 2 * ((j - (y0 + 1) * w) / 2)
              ∨ j = (y0 + 1) * w + 2 * ((j - (y0 + 1) * w) / 2) + 1 := by omega
          rcases hcase with hc | hc
          · rw [botTileVal, if_pos hc, hsub,
              topRowVal_R w y0 _ P hxee hxelt, hQ1b, hQ1c,
              show P j = P ((y0 + 1) * w + 2 * ((j - (y0 + 1) * w) / 2)) from congrArg P hc]
          · rw [botTileVal, if_neg (by omega), if_pos hc, hsub,
              topRowVal_R w y0 _ P hxee hxelt, hQ1b, hQ1c,
              show P j = P ((y0 + 1) * w + 2 * ((j - (y0 + 1) * w) / 2) + 1) from congrArg P hc]
        · -- j lies beyond the processed pair
          rw [rowsVal, if_pos (by omega), rowsVal, if_pos (by omega)]
          by_cases hD : j < h * w
          · have hyq : y0 + 2 ≤ j / w := (Nat.le_div_iff_mul_le hw0).mpr (by omega)
            have hye2 : y0 + 2 ≤ 2 * (j / w / 2) := by omega
            have hm1 : (y0 + 2) * w ≤ 2 * (j / w / 2) * w :=
              Nat.mul_le_mul_right w hye2
            have em : (2 * (j / w / 2) + 1) * w = 2 * (j / w / 2) * w + w := by ring
            refine fillVal_congr w h _ _ j ?_ ?_ ?_ ?_ ?_ <;>
              exact pairRowVal_outside w y0 P _ (by omega) (by omega)
          · have hm : (y0 + 2) * w ≤ h * w := Nat.mul_le_mul_right w (by omega)
            rw [fillVal, if_neg (by omega), fillVal, if_neg (by omega)]
            exact pairRowVal_outside w y0 P j (by omega) (by omega)

/-- The outer row loop computes `rowsVal`. -/
theorem crawFillRows_spec (w h : ℕ) (hw : w % 2 = 0) (hh : h % 2 = 0) :
    ∀ (fuel y0 : ℕ) (b : PixBuf), y0 % 2 = 0 → h ≤ y0 + 2 * fuel → h * w ≤ b.len →
      ∃ c, crawFillRows w w h fuel y0 b = some c ∧ c.len = b.len ∧
        ∀ j, c.val j = rowsVal w h y0 b.val j := by
  intro fuel
  induction fuel with
  | zero =>
    intro y0 b hy0 hfuel hlen
    refine ⟨b, rfl, rfl, fun j => ?_⟩
    have hm : h * w ≤ y0 * w := Nat.mul_le_mul_right w (by omega)
    rw [rowsVal]
    by_cases hj : y0 * w ≤ j
    · rw [if_pos hj, fillVal, if_neg (by omega)]
    · rw [if_neg hj]
  | succ n ih =>
    intro y0 b hy0 hfuel hlen
    by_cases hyh : y0 < h
    · have hm2 : (y0 + 2) * w ≤ h * w := Nat.mul_le_mul_right w (by omega)
      have e2 : (y0 + 1 + 1) * w = (y0 + 2) * w := by ring
      obtain ⟨c1, hc1, hl1, hv1⟩ :=
        crawFillRowTop_spec w y0 hw w 0 b (by omega) (by omega) (by omega)
      obtain ⟨c2, hc2, hl2, hv2⟩ :=
        crawFillRowBot_spec w (y0 + 1) hw (by omega) w 0 c1 (by omega) (by omega)
          (by omega)
      obtain ⟨c, hc, hl, hv⟩ := ih (y0 + 2) c2 (by omega) (by omega) (by omega)
      refine ⟨c, ?_, by omega, fun j => ?_⟩
      · show crawFillRows w w h (n + 1) y0 b = some c
        simp only [crawFillRows]
        rw [if_pos hyh, hc1, optBind_some, hc2, optBind_some]
        exact hc
      · have hf1 : c1.val = topRowVal w y0 0 b.val := funext hv1
        have hf2 : c2.val = botRowVal w (y0 + 1) 0 c1.val := funext hv2
        rw [hv j, hf2, hf1]
        exact rowsVal_step w h y0 b.val hw hh hy0 hyh j
    · refine ⟨b, ?_, rfl, fun j => ?_⟩
      · simp only [crawFillRows]
        rw [if_neg hyh]
      · have hm : h * w ≤ y0 * w := Nat.mul_le_mul_right w (by omega)
        rw [rowsVal]
        by_cases hj : y0 * w ≤ j
        · rw [if_pos hj, fillVal, if_neg (by omega)]
        · rw [if_neg hj]

/-- The complete `readCRAW` fill pass computes `fillVal` on even-width,
even-height rasters. -/
theorem crawFillPass_spec (w h : ℕ) (hw : w % 2 = 0) (hh : h % 2 = 0)
    (b : PixBuf) (hlen : h * w ≤ b.len) :
    ∃ c, crawFillPass w w h b = some c ∧ c.len = b.len ∧
      ∀ j, c.val j = fillVal w h b.val j := by
  obtain ⟨c, hc, hl, hv⟩ :=
    crawFillRows_spec w h hw hh h 0 b (by omega) (by omega) hlen
  refine ⟨c, hc, hl, fun j => ?_⟩
  rw [hv j, rowsVal, if_pos (by omega)]

/-- The two strategies' tile statements coincide. -/
theorem linFillTopTile_eq : linFillTopTile = crawFillTopTile := rfl

/-- The two strategies' odd-row tile statements coincide. -/
theorem linFillBotTile_eq : linFillBotTile = crawFillBotTile := rfl

/-- The two strategies' even-row column loops coincide. -/
theorem linFillRowTop_eq (s w y : ℕ) : ∀ (fuel x : ℕ) (b : PixBuf),
    linFillRowTop s w y fuel x b = crawFillRowTop s w y fuel x b := by
  intro fuel
  induction fuel with
  | zero => intro x b; rfl
  | succ n ih =>
    intro x b
    simp only [linFillRowTop, crawFillRowTop]
    by_cases hxw : x < w
    · rw [if_pos hxw, if_pos hxw, linFillTopTile_eq]
      cases hcr : crawFillTopTile s y x b with
      | none => rfl
      | some b1 => rw [optBind_some, optBind_some]; exact ih (x + 2) b1
    · rw [if_neg hxw, if_neg hxw]

/-- The two strategies' odd-row column loops coincide. -/
theorem linFillRowBot_eq (s w y : ℕ) : ∀ (fuel x : ℕ) (b : PixBuf),
    linFillRowBot s w y fuel x b = crawFillRowBot s w y fuel x b := by
  intro fuel
  induction fuel with
  | zero => intro x b; rfl
  | succ n ih =>
    intro x b
    simp only [linFillRowBot, crawFillRowBot]
    by_cases hxw : x < w
    · rw [if_pos hxw, if_pos hxw, linFillBotTile_eq]
      cases hcr : crawFillBotTile s y x b with
      | none => rfl
      | some b1 => rw [optBind_some, optBind_some]; exact ih (x + 2) b1
    · rw [if_neg hxw, if_neg hxw]

/-- The two strategies' outer fill loops coincide. -/
theorem linFillRows_eq (s w h : ℕ) : ∀ (fuel y : ℕ) (b : PixBuf),
    linFillRows s w h fuel y b = crawFillRows s w h fuel y b := by
  intro fuel
  induction fuel with
  | zero => intro y b; rfl
  | succ n ih =>
    intro y b
    simp only [linFillRows, crawFillRows]
    by_cases hyh : y < h
    · rw [if_pos hyh, if_pos hyh, linFillRowTop_eq]
      cases hcr : crawFillRowTop s w y w 0 b with
      | none => rfl
      | some b1 =>
        rw [optBind_some, optBind_some, linFillRowBot_eq]
        cases hcr2 : crawFillRowBot s w (y + 1) w 0 b1 with
        | none => rfl
        | some b2 => rw [optBind_some, optBind_some]; exact ih (y + 2) b2
    · rw [if_neg hyh, if_neg hyh]

/-- The two strategies' fill passes are the same function. -/
theorem linFillPass_eq (s w h : ℕ) (b : PixBuf) :
    linFillPass s w h b = crawFillPass s w h b := by
  simp only [linFillPass, crawFillPass, linFillRows_eq]

/-- C4: on every even-width, even-height raster the neighbor-fill pass of
both strategies succeeds with the same result, and for each 2×2 tile at
even `(x, y)`: cell `(x,y)` gets G from `(x+1,y)` and B from `(x+1,y+1)`;
cell `(x+1,y)` gets R from `(x,y)` and B from `(x+1,y+1)`; cell `(x,y+1)`
gets R from `(x,y)` and B from `(x+1,y+1)`; cell `(x+1,y+1)` gets R from
`(x,y)` and G from `(x,y+1)` — all copies taken from the raster as the
channel-write pass left it. -/
theorem fill_pass_tile_rule (w h : ℕ) (b : PixBuf)
    (hw : w % 2 = 0) (hh : h % 2 = 0) (hlen : b.len = w * h)
    (x y : ℕ) (hx : x < w) (hy : y < h) (hex : x % 2 = 0) (hey : y % 2 = 0) :
    ∃ c, crawFillPass w w h b = some c ∧ linFillPass w w h b = some c ∧
      (c.val (y * w + x)).G = (b.val (y * w + x + 1)).G ∧
      (c.val (y * w + x)).B = (b.val ((y + 1) * w + x + 1)).B ∧
      (c.val (y * w + x + 1)).R = (b.val (y * w + x)).R ∧
      (c.val (y * w + x + 1)).B = (b.val ((y + 1) * w + x + 1)).B ∧
      (c.val ((y + 1) * w + x)).R = (b.val (y * w + x)).R ∧
      (c.val ((y + 1) * w + x)).B = (b.val ((y + 1) * w + x + 1)).B ∧
      (c.val ((y + 1) * w + x + 1)).R = (b.val (y * w + x)).R ∧
      (c.val ((y + 1) * w + x + 1)).G = (b.val ((y + 1) * w + x)).G := by
  have hmul : w * h = h * w := by ring
  obtain ⟨c, hc, hl, hv⟩ := crawFillPass_spec w h hw hh b (by omega)
  have hwpos : 0 < w := by omega
  have ew1 : (y + 1) * w = y * w + w := by ring
  have ew2 : (y + 2) * w = y * w + w + w := by ring
  have hx1 : x + 1 < w := by omega
  have hy1 : y + 1 < h := by omega
  have hmm1 : (y + 1) * w ≤ h * w := Nat.mul_le_mul_right w (by omega)
  have hmm2 : (y + 2) * w ≤ h * w := Nat.mul_le_mul_right w (by omega)
  obtain ⟨hdA, hmA⟩ := row_divmod w y (y * w + x) (by omega) (by omega)
  obtain ⟨hdB, hmB⟩ := row_divmod w y (y * w + x + 1) (by omega) (by omega)
  obtain ⟨hdC, hmC⟩ := row_divmod w (y + 1) ((y + 1) * w + x) (by omega) (by omega)
  obtain ⟨hdD, hmD⟩ := row_divmod w (y + 1) ((y + 1) * w + x + 1) (by omega) (by omega)
  have hyE : 2 * (y / 2) = y := by omega
  have hyO : 2 * ((y + 1) / 2) = y := by omega
  have hxE : 2 * (x / 2) = x := by omega
  have hxA : y * w + x - y * w = x := by omega
  have hxB : y * w + x + 1 - y * w = x + 1 := by omega
  have hxO : 2 * ((x + 1) / 2) = x := by omega
  have hxC : (y + 1) * w + x - (y + 1) * w = x := by omega
  have hxD : (y + 1) * w + x + 1 - (y + 1) * w = x + 1 := by omega
  refine ⟨c, hc, (linFillPass_eq w w h b).trans hc, ?_, ?_, ?_, ?_, ?_, ?_, ?_, ?_⟩
  · rw [hv, fillVal, if_pos (show y * w + x < h * w ∧ 0 < w by omega),
      hdA, hmA, hxA, hyE, hxE, if_pos (show y % 2 = 0 from hey)]
  · rw [hv, fillVal, if_pos (show y * w + x < h * w ∧ 0 < w by omega),
      hdA, hmA, hxA, hyE, hxE]
  · rw [hv, fillVal, if_pos (show y * w + x + 1 < h * w ∧ 0 < w by omega),
      hdB, hmB, hxB, hyE, hxO]
  · rw [hv, fillVal, if_pos (show y * w + x + 1 < h * w ∧ 0 < w by omega),
      hdB, hmB, hxB, hyE, hxO]
  · rw [hv, fillVal, if_pos (show (y + 1) * w + x < h * w ∧ 0 < w by omega),
      hdC, hmC, hxC, hyO, hxE]
  · rw [hv, fillVal, if_pos (show (y + 1) * w + x < h * w ∧ 0 < w by omega),
      hdC, hmC, hxC, hyO, hxE]
  · rw [hv, fillVal, if_pos (show (y + 1) * w + x + 1 < h * w ∧ 0 < w by omega),
      hdD, hmD, hxD, hyO, hxO]
  · rw [hv, fillVal, if_pos (show (y + 1) * w + x + 1 < h * w ∧ 0 < w by omega),
      hdD, hmD, hxD, hyO, hxO, if_neg (show ¬ (y + 1) % 2 = 0 by omega)]

/-- Witness for C4 on a concrete 2×2 raster with distinct channel values. -/
theorem fill_pass_tile_rule_witness :
    (2 % 2 = 0) ∧ (2 % 2 = 0) ∧
      (⟨4, fun j => ⟨j, 10 + j, 20 + j, 0⟩⟩ : PixBuf).len = 2 * 2 ∧
      (0 < 2) ∧ (0 < 2) ∧ (0 % 2 = 0) ∧ (0 % 2 = 0) ∧
      ∃ c, crawFillPass 2 2 2 ⟨4, fun j => ⟨j, 10 + j, 20 + j, 0⟩⟩ = some c ∧
        linFillPass 2 2 2 ⟨4, fun j => ⟨j, 10 + j, 20 + j, 0⟩⟩ = some c ∧
        (c.val (0 * 2 + 0)).G = ((fun j => (⟨j, 10 + j, 20 + j, 0⟩ : pixel16)) (0 * 2 + 0 + 1)).G ∧
        (c.val (0 * 2 + 0)).B = ((fun j => (⟨j, 10 + j, 20 + j, 0⟩ : pixel16)) ((0 + 1) * 2 + 0 + 1)).B ∧
        (c.val (0 * 2 + 0 + 1)).R = ((fun j => (⟨j, 10 + j, 20 + j, 0⟩ : pixel16)) (0 * 2 + 0)).R ∧
        (c.val (0 * 2 + 0 + 1)).B = ((fun j => (⟨j, 10 + j, 20 + j, 0⟩ : pixel16)) ((0 + 1) * 2 + 0 + 1)).B ∧
        (c.val ((0 + 1) * 2 + 0)).R = ((fun j => (⟨j, 10 + j, 20 + j, 0⟩ : pixel16)) (0 * 2 + 0)).R ∧
        (c.val ((0 + 1) * 2 + 0)).B = ((fun j => (⟨j, 10 + j, 20 + j, 0⟩ : pixel16)) ((0 + 1) * 2 + 0 + 1)).B ∧
        (c.val ((0 + 1) * 2 + 0 + 1)).R = ((fun j => (⟨j, 10 + j, 20 + j, 0⟩ : pixel16)) (0 * 2 + 0)).R ∧
        (c.val ((0 + 1) * 2 + 0 + 1)).G = ((fun j => (⟨j, 10 + j, 20 + j, 0⟩ : pixel16)) ((0 + 1) * 2 + 0)).G :=
  ⟨by decide, by decide, rfl, by decide, by decide, by decide, by decide,
    fill_pass_tile_rule 2 2 ⟨4, fun j => ⟨j, 10 + j, 20 + j, 0⟩⟩
      (by decide) (by decide) rfl 0 0 (by decide) (by decide) (by decide) (by decide)⟩

/-- `pairsVal` reads the underlying raster only at the queried cell. -/
theorem pairsVal_congr (setA setB : pixel16 → ℕ → pixel16) (av bv : ℕ → ℕ)
    (base i0 : ℕ) (P Q : ℕ → pixel16) (j : ℕ) (hj : P j = Q j) :
    pairsVal setA setB av bv base i0 P j = pairsVal setA setB av bv base i0 Q j := by
  rw [pairsVal, pairsVal, hj]

/-- Advancing the interleaving write loop by one iteration. -/
theorem pairsVal_step (setA setB : pixel16 → ℕ → pixel16) (av bv : ℕ → ℕ)
    (base i0 : ℕ) (P Q : ℕ → pixel16) (hi : i0 < 16)
    (hQ1 : Q (base + i0 * 2) = setA (P (base + i0 * 2)) (av i0))
    (hQ2 : Q (base + i0 * 2 + 1) = setB (P (base + i0 * 2 + 1)) (bv i0))
    (hQ3 : ∀ k, ¬ k = base + i0 * 2 → ¬ k = base + i0 * 2 + 1 → Q k = P k)
    (j : ℕ) :
    pairsVal setA setB av bv base (i0 + 1) Q j
      = pairsVal setA setB av bv base i0 P j := by
  by_cases hj1 : j = base + i0 * 2
  · subst hj1
    rw [pairsVal, if_neg (by omega), hQ1, pairsVal, if_pos (by omega)]
    have hp : (base + i0 * 2 - base) % 2 = 0 := by omega
    have hd : (base + i0 * 2 - base) / 2 = i0 := by omega
    rw [if_pos hp, hd]
  · by_cases hj2 : j = base + i0 * 2 + 1
    · subst hj2
      rw [pairsVal, if_neg (by omega), hQ2, pairsVal, if_pos (by omega)]
      have hp : ¬ (base + i0 * 2 + 1 - base) % 2 = 0 := by omega
      have hd : (base + i0 * 2 + 1 - base) / 2 = i0 := by omega
      rw [if_neg hp, hd]
    · by_cases hin : base + i0 * 2 ≤ j ∧ j < base + 16 * 2
      · have hin2 : base + (i0 + 1) * 2 ≤ j ∧ j < base + 16 * 2 := by omega
        rw [pairsVal, if_pos hin2, pairsVal, if_pos hin, hQ3 j hj1 hj2]
      · have hout : ¬ (base + (i0 + 1) * 2 ≤ j ∧ j < base + 16 * 2) := by omega
        rw [pairsVal, if_neg hout, pairsVal, if_neg hin, hQ3 j hj1 hj2]

/-- The interleaving write loop computes `pairsVal`. -/
theorem crawWritePairs_spec (setA setB : pixel16 → ℕ → pixel16) (av bv : ℕ → ℕ)
    (base : ℕ) :
    ∀ (fuel i0 : ℕ) (b : PixBuf), 16 ≤ i0 + fuel → base + 16 * 2 ≤ b.len →
      ∃ c, crawWritePairs setA setB av bv base fuel i0 b = some c ∧ c.len = b.len ∧
        ∀ j, c.val j = pairsVal setA setB av bv base i0 b.val j := by
  intro fuel
  induction fuel with
  | zero =>
    intro i0 b hf hlen
    refine ⟨b, rfl, rfl, fun j => ?_⟩
    rw [pairsVal, if_neg (by omega)]
  | succ n ih =>
    intro i0 b hf hlen
    by_cases hi : i0 < 16
    · have hw1 : base + i0 * 2 < b.len := by omega
      have hw2 : base + i0 * 2 + 1 < b.len := by omega
      have d1 : ¬ (base + i0 * 2 + 1 = base + i0 * 2) := by omega
      have hb1 : pixWrite b (base + i0 * 2) (fun p => setA p (av i0))
          = some ⟨b.len, fun k => if k = base + i0 * 2
              then setA (b.val (base + i0 * 2)) (av i0) else b.val k⟩ := by
        rw [pixWrite, if_pos hw1]
      have hb2 : pixWrite (⟨b.len, fun k => if k = base + i0 * 2
            then setA (b.val (base + i0 * 2)) (av i0) else b.val k⟩ : PixBuf)
            (base + i0 * 2 + 1) (fun p => setB p (bv i0))
          = some ⟨b.len, fun k => if k = base + i0 * 2
              then setA (b.val (base + i0 * 2)) (av i0)
              else if k = base + i0 * 2 + 1
                then setB (b.val (base + i0 * 2 + 1)) (bv i0) else b.val k⟩ := by
        rw [pixWrite]
        dsimp only
        rw [if_pos hw2]
        refine congrArg some ?_
        refine congrArg (PixBuf.mk b.len) ?_
        funext k
        by_cases k1 : k = base + i0 * 2
        · subst k1
          simp [d1, (by omega : ¬ (base + i0 * 2 = base + i0 * 2 + 1))]
        · by_cases k2 : k = base + i0 * 2 + 1
          · subst k2
            simp [d1]
          · simp [k1, k2]
      obtain ⟨c, hc, hclen, hcval⟩ := ih (i0 + 1)
        ⟨b.len, fun k => if k = base + i0 * 2
            then setA (b.val (base + i0 * 2)) (av i0)
            else if k = base + i0 * 2 + 1
              then setB (b.val (base + i0 * 2 + 1)) (bv i0) else b.val k⟩
        (by omega) hlen
      refine ⟨c, ?_, hclen, fun j => ?_⟩
      · show crawWritePairs setA setB av bv base (n + 1) i0 b = some c
        simp only [crawWritePairs]
        rw [if_pos hi, hb1, optBind_some, hb2, optBind_some]
        exact hc
      · rw [hcval j]
        refine pairsVal_step setA setB av bv base i0 b.val _ hi ?_ ?_ ?_ j
        · simp
        · simp [d1]
        · intro k hk1 hk2
          simp [hk1, hk2]
    · refine ⟨b, ?_, rfl, fun j => ?_⟩
      · simp only [crawWritePairs]
        rw [if_neg hi]
      · rw [pairsVal, if_neg (by omega)]

/-- One block of the channel pass at stride 32 computes `crawRowVal`. -/
theorem crawBlock_spec (env : CrawEnv) (xf : Fin 6 → ℚ) (rw : rawDetails)
    (wbR : ℕ → ℚ) (buf : List ℕ) (y : ℕ) (b : PixBuf)
    (hbuf : y * 32 + 0 + 2 * pixelBlockSize ≤ buf.length)
    (hlen : y * 32 + 0 + 16 * 2 ≤ b.len) :
    ∃ c, crawBlock env xf rw wbR buf y (y * 32 + 0) b = some c ∧ c.len = b.len ∧
      ∀ j, c.val j = crawRowVal env xf rw wbR buf y b.val j := by
  by_cases hy : y % 2 = 0
  · obtain ⟨c, hc, hl, hv⟩ := crawWritePairs_spec setRv setGv
      (fun i => trunc16 (process xf
        (env.decomp ((buf.drop (y * 32 + 0)).take pixelBlockSize) i)
        (rw.blackLevel.getD 0 0) (wbR 0)))
      (fun i => trunc16 (process xf
        (env.decomp ((buf.drop (y * 32 + 0 + pixelBlockSize)).take pixelBlockSize) i)
        (rw.blackLevel.getD 1 0) (wbR 1)))
      (y * 32 + 0) 16 0 b (by omega) hlen
    refine ⟨c, ?_, hl, fun j => ?_⟩
    · rw [crawBlock, if_pos hbuf, if_pos hy]
      exact hc
    · rw [hv j, crawRowVal, if_pos hy]
  · obtain ⟨c, hc, hl, hv⟩ := crawWritePairs_spec setGv setBv
      (fun i => trunc16 (process xf
        (env.decomp ((buf.drop (y * 32 + 0)).take pixelBlockSize) i)
        (rw.blackLevel.getD 0 0) (wbR 0)))
      (fun i => trunc16 (process xf
        (env.decomp ((buf.drop (y * 32 + 0 + pixelBlockSize)).take pixelBlockSize) i)
        (rw.blackLevel.getD 1 0) (wbR 1)))
      (y * 32 + 0) 16 0 b (by omega) hlen
    refine ⟨c, ?_, hl, fun j => ?_⟩
    · rw [crawBlock, if_pos hbuf, if_neg hy]
      exact hc
    · rw [hv j, crawRowVal, if_neg hy]

/-- At width 32 one row of the channel pass runs exactly one block. -/
theorem crawChannelRow32 (env : CrawEnv) (xf : Fin 6 → ℚ) (rw : rawDetails)
    (wbR : ℕ → ℚ) (buf : List ℕ) (y : ℕ) (b : PixBuf) :
    crawChannelRow env xf rw wbR buf 32 y 32 0 b
      = crawBlock env xf rw wbR buf y (y * 32 + 0) b := by
  have h1 : crawChannelRow env xf rw wbR buf 32 y 32 0 b
      = (crawBlock env xf rw wbR buf y (y * 32 + 0) b >>= fun b1 =>
          crawChannelRow env xf rw wbR buf 32 y 31 (0 + 32) b1) := rfl
  rw [h1]
  cases hcb : crawBlock env xf rw wbR buf y (y * 32 + 0) b with
  | none => rfl
  | some b1 =>
    rw [optBind_some]
    rfl

/-- A processed row leaves cells outside its band untouched. -/
theorem crawRowVal_outside (env : CrawEnv) (xf : Fin 6 → ℚ) (rw : rawDetails)
    (wbR : ℕ → ℚ) (buf : List ℕ) (y : ℕ) (P : ℕ → pixel16) (j : ℕ)
    (hout : ¬ (y * 32 + 0 + 0 * 2 ≤ j ∧ j < y * 32 + 0 + 16 * 2)) :
    crawRowVal env xf rw wbR buf y P j = P j := by
  rw [crawRowVal]
  by_cases hy : y % 2 = 0
  · rw [if_pos hy, pairsVal, if_neg hout]
  · rw [if_neg hy, pairsVal, if_neg hout]

/-- `crawRowVal` reads the underlying raster only at the queried cell. -/
theorem crawRowVal_congr (env : CrawEnv) (xf : Fin 6 → ℚ) (rw : rawDetails)
    (wbR : ℕ → ℚ) (buf : List ℕ) (y : ℕ) (P Q : ℕ → pixel16) (j : ℕ)
    (hj : P j = Q j) :
    crawRowVal env xf rw wbR buf y P j = crawRowVal env xf rw wbR buf y Q j := by
  rw [crawRowVal, crawRowVal]
  by_cases hy : y % 2 = 0
  · rw [if_pos hy, if_pos hy]
    exact pairsVal_congr _ _ _ _ _ _ _ _ j hj
  · rw [if_neg hy, if_neg hy]
    exact pairsVal_congr _ _ _ _ _ _ _ _ j hj

/-- Processing the row at `y0` advances `chanVal` from `y0` to `y0 + 1`. -/
theorem chanVal_step (env : CrawEnv) (xf : Fin 6 → ℚ) (rw : rawDetails)
    (wbR : ℕ → ℚ) (buf : List ℕ) (h y0 : ℕ) (P : ℕ → pixel16)
    (hyh : y0 < h) (j : ℕ) :
    chanVal env xf rw wbR buf h (y0 + 1) (crawRowVal env xf rw wbR buf y0 P) j
      = chanVal env xf rw wbR buf h y0 P j := by
  by_cases hA : j < y0 * 32
  · rw [chanVal, if_neg (by omega), chanVal, if_neg (by omega)]
    exact crawRowVal_outside env xf rw wbR buf y0 P j (by omega)
  · by_cases hB : j < (y0 + 1) * 32
    · rw [chanVal, if_neg (by omega), chanVal, if_pos (by omega)]
      have hdj : j / 32 = y0 := by omega
      rw [hdj]
    · by_cases hC : j < h * 32
      · rw [chanVal, if_pos (by omega), chanVal, if_pos (by omega)]
        exact crawRowVal_congr env xf rw wbR buf (j / 32) _ _ j
          (crawRowVal_outside env xf rw wbR buf y0 P j (by omega))
      · rw [chanVal, if_neg (by omega), chanVal, if_neg (by omega)]
        exact crawRowVal_outside env xf rw wbR buf y0 P j (by omega)

/-- The channel-pass row loop at width 32 computes `chanVal`. -/
theorem crawChannelRows_spec (env : CrawEnv) (xf : Fin 6 → ℚ) (rw : rawDetails)
    (wbR : ℕ → ℚ) (buf : List ℕ) (h : ℕ) (hbuf : h * 32 ≤ buf.length) :
    ∀ (fuel y0 : ℕ) (b : PixBuf), h ≤ y0 + fuel → h * 32 ≤ b.len →
      ∃ c, crawChannelRows env xf rw wbR buf 32 h fuel y0 b = some c ∧ c.len = b.len ∧
        ∀ j, c.val j = chanVal env xf rw wbR buf h y0 b.val j := by
  intro fuel
  induction fuel with
  | zero =>
    intro y0 b hf hlen
    refine ⟨b, rfl, rfl, fun j => ?_⟩
    rw [chanVal, if_neg (by omega)]
  | succ n ih =>
    intro y0 b hf hlen
    by_cases hyh : y0 < h
    · have hpbs : pixelBlockSize = 16 := rfl
      obtain ⟨c1, hc1, hl1, hv1⟩ :=
        crawBlock_spec env xf rw wbR buf y0 b (by omega) (by omega)
      obtain ⟨c, hc, hl, hv⟩ := ih (y0 + 1) c1 (by omega) (by omega)
      refine ⟨c, ?_, by omega, fun j => ?_⟩
      · show crawChannelRows env xf rw wbR buf 32 h (n + 1) y0 b = some c
        simp only [crawChannelRows]
        rw [if_pos hyh, crawChannelRow32, hc1, optBind_some]
        exact hc
      · have hf1 : c1.val = crawRowVal env xf rw wbR buf y0 b.val := funext hv1
        rw [hv j, hf1]
        exact chanVal_step env xf rw wbR buf h y0 b.val hyh j
    · refine ⟨b, ?_, rfl, fun j => ?_⟩
      · simp only [crawChannelRows]
        rw [if_neg hyh]
      · rw [chanVal, if_neg (by omega)]

/-- Two raster slices with equal length and pointwise-equal contents are
equal. -/
theorem pixBufEq (a b : PixBuf) (hl : a.len = b.len)
    (hv : ∀ j, a.val j = b.val j) : a = b := by
  obtain ⟨la, va⟩ := a
  obtain ⟨lb, vb⟩ := b
  have hl2 : la = lb := hl
  subst hl2
  exact congrArg (PixBuf.mk la) (funext hv)

/-- `chanVal` reads the raw parameters only through black-level channels 0
and 1. -/
theorem chanVal_rw (env : CrawEnv) (xf : Fin 6 → ℚ) (rw1 rw2 : rawDetails)
    (wbR : ℕ → ℚ) (buf : List ℕ) (h y0 : ℕ) (P : ℕ → pixel16) (j : ℕ)
    (h0 : rw1.blackLevel.getD 0 0 = rw2.blackLevel.getD 0 0)
    (h1 : rw1.blackLevel.getD 1 0 = rw2.blackLevel.getD 1 0) :
    chanVal env xf rw1 wbR buf h y0 P j = chanVal env xf rw2 wbR buf h y0 P j := by
  by_cases hin : y0 * 32 ≤ j ∧ j < h * 32
  · rw [chanVal, if_pos hin, chanVal, if_pos hin, crawRowVal, crawRowVal, h0, h1]
  · rw [chanVal, if_neg hin, chanVal, if_neg hin]

/-- C10: in the compressed-block strategy the green and blue groups of
every odd-indexed row are corrected with the black level and white-balance
ratio of channel indices 0 and 1 respectively — the same indices the even
rows use for red and green, and the code never reads black levels 2 and 3
(first conjunct), unlike the linear strategy whose odd rows use indices 2
and 3 (lines 361-369).  Stated for rasters of width 32 (one block per
row). -/
theorem crawOddRows_channels (env : CrawEnv) (rw : rawDetails) (buf : List ℕ)
    (b : PixBuf) (hw32 : rw.width = 32) (hlen : b.len = rw.height * 32)
    (hbuf : rw.height * 32 ≤ buf.length) :
    (∀ b0 b1 b2 b3 b2' b3' : ℕ,
        crawChannelPass env { rw with blackLevel := [b0, b1, b2, b3] } buf b =
          crawChannelPass env { rw with blackLevel := [b0, b1, b2', b3'] } buf b) ∧
    ∃ c, crawChannelPass env rw buf b = some c ∧
      ∀ y i, y < rw.height → y % 2 = 1 → i < 16 →
        (c.val (y * 32 + i * 2)).G = trunc16 (process
            (env.solve [rw.gammaCurve.getD 0 0, rw.gammaCurve.getD 1 0,
              rw.gammaCurve.getD 2 0, rw.gammaCurve.getD 3 0])
            (env.decomp ((buf.drop (y * 32 + 0)).take pixelBlockSize) i)
            (rw.blackLevel.getD 0 0) (whiteBalanceRGGB rw.WhiteBalance 0)) ∧
        (c.val (y * 32 + i * 2 + 1)).B = trunc16 (process
            (env.solve [rw.gammaCurve.getD 0 0, rw.gammaCurve.getD 1 0,
              rw.gammaCurve.getD 2 0, rw.gammaCurve.getD 3 0])
            (env.decomp ((buf.drop (y * 32 + 0 + pixelBlockSize)).take pixelBlockSize) i)
            (rw.blackLevel.getD 1 0) (whiteBalanceRGGB rw.WhiteBalance 1)) := by
  constructor
  · intro b0 b1 b2 b3 b2' b3'
    have e1 : crawChannelPass env { rw with blackLevel := [b0, b1, b2, b3] } buf b
        = crawChannelRows env
            (env.solve [rw.gammaCurve.getD 0 0, rw.gammaCurve.getD 1 0,
              rw.gammaCurve.getD 2 0, rw.gammaCurve.getD 3 0])
            { rw with blackLevel := [b0, b1, b2, b3] }
            (whiteBalanceRGGB rw.WhiteBalance) buf 32 rw.height rw.height 0 b := by
      show crawChannelRows env
          (env.solve [rw.gammaCurve.getD 0 0, rw.gammaCurve.getD 1 0,
            rw.gammaCurve.getD 2 0, rw.gammaCurve.getD 3 0])
          { rw with blackLevel := [b0, b1, b2, b3] }
          (whiteBalanceRGGB rw.WhiteBalance) buf rw.width rw.height rw.height 0 b
        = _
      rw [hw32]
    have e2 : crawChannelPass env { rw with blackLevel := [b0, b1, b2', b3'] } buf b
        = crawChannelRows env
            (env.solve [rw.gammaCurve.getD 0 0, rw.gammaCurve.getD 1 0,
              rw.gammaCurve.getD 2 0, rw.gammaCurve.getD 3 0])
            { rw with blackLevel := [b0, b1, b2', b3'] }
            (whiteBalanceRGGB rw.WhiteBalance) buf 32 rw.height rw.height 0 b := by
      show crawChannelRows env
          (env.solve [rw.gammaCurve.getD 0 0, rw.gammaCurve.getD 1 0,
            rw.gammaCurve.getD 2 0, rw.gammaCurve.getD 3 0])
          { rw with blackLevel := [b0, b1, b2', b3'] }
          (whiteBalanceRGGB rw.WhiteBalance) buf rw.width rw.height rw.height 0 b
        = _
      rw [hw32]
    obtain ⟨c1, hc1, hl1, hv1⟩ := crawChannelRows_spec env
      (env.solve [rw.gammaCurve.getD 0 0, rw.gammaCurve.getD 1 0,
        rw.gammaCurve.getD 2 0, rw.gammaCurve.getD 3 0])
      { rw with blackLevel := [b0, b1, b2, b3] }
      (whiteBalanceRGGB rw.WhiteBalance) buf rw.height hbuf rw.height 0 b
      (by omega) (by omega)
    obtain ⟨c2, hc2, hl2, hv2⟩ := crawChannelRows_spec env
      (env.solve [rw.gammaCurve.getD 0 0, rw.gammaCurve.getD 1 0,
        rw.gammaCurve.getD 2 0, rw.gammaCurve.getD 3 0])
      { rw with blackLevel := [b0, b1, b2', b3'] }
      (whiteBalanceRGGB rw.WhiteBalance) buf rw.height hbuf rw.height 0 b
      (by omega) (by omega)
    rw [e1, hc1, e2, hc2]
    refine congrArg some (pixBufEq c1 c2 (by omega) fun j => ?_)
    rw [hv1 j, hv2 j]
    exact chanVal_rw env _ _ _ (whiteBalanceRGGB rw.WhiteBalance) buf
      rw.height 0 b.val j rfl rfl
  · rw [show crawChannelPass env rw buf b
        = crawChannelRows env
            (env.solve [rw.gammaCurve.getD 0 0, rw.gammaCurve.getD 1 0,
              rw.gammaCurve.getD 2 0, rw.gammaCurve.getD 3 0])
            rw (whiteBalanceRGGB rw.WhiteBalance) buf 32 rw.height rw.height 0 b
      from by rw [crawChannelPass, hw32]]
    obtain ⟨c, hc, hl, hv⟩ := crawChannelRows_spec env
      (env.solve [rw.gammaCurve.getD 0 0, rw.gammaCurve.getD 1 0,
        rw.gammaCurve.getD 2 0, rw.gammaCurve.getD 3 0])
      rw (whiteBalanceRGGB rw.WhiteBalance) buf rw.height hbuf rw.height 0 b
      (by omega) (by omega)
    refine ⟨c, hc, fun y i hy hyO hi => ?_⟩
    have hpbs : pixelBlockSize = 16 := rfl
    constructor
    · rw [hv, chanVal, if_pos (by omega),
        show (y * 32 + i * 2) / 32 = y by omega, crawRowVal,
        if_neg (show ¬ y % 2 = 0 by omega), pairsVal, if_pos (by omega),
        if_pos (show (y * 32 + i * 2 - (y * 32 + 0)) % 2 = 0 by omega),
        show (y * 32 + i * 2 - (y * 32 + 0)) / 2 = i by omega]
      rfl
    · rw [hv, chanVal, if_pos (by omega),
        show (y * 32 + i * 2 + 1) / 32 = y by omega, crawRowVal,
        if_neg (show ¬ y % 2 = 0 by omega), pairsVal, if_pos (by omega),
        if_neg (show ¬ (y * 32 + i * 2 + 1 - (y * 32 + 0)) % 2 = 0 by omega),
        show (y * 32 + i * 2 + 1 - (y * 32 + 0)) / 2 = i by omega]
      rfl

/-- Witness for C10 on the concrete 32×2 configuration. -/
theorem crawOddRows_channels_witness :
    rwC10.width = 32 ∧ pbC10.len = rwC10.height * 32 ∧
      rwC10.height * 32 ≤ bufC10.length ∧
      ((∀ b0 b1 b2 b3 b2' b3' : ℕ,
          crawChannelPass envC10 { rwC10 with blackLevel := [b0, b1, b2, b3] } bufC10 pbC10 =
            crawChannelPass envC10 { rwC10 with blackLevel := [b0, b1, b2', b3'] } bufC10 pbC10) ∧
        ∃ c, crawChannelPass envC10 rwC10 bufC10 pbC10 = some c ∧
          ∀ y i, y < rwC10.height → y % 2 = 1 → i < 16 →
            (c.val (y * 32 + i * 2)).G = trunc16 (process
                (envC10.solve [rwC10.gammaCurve.getD 0 0, rwC10.gammaCurve.getD 1 0,
                  rwC10.gammaCurve.getD 2 0, rwC10.gammaCurve.getD 3 0])
                (envC10.decomp ((bufC10.drop (y * 32 + 0)).take pixelBlockSize) i)
                (rwC10.blackLevel.getD 0 0) (whiteBalanceRGGB rwC10.WhiteBalance 0)) ∧
            (c.val (y * 32 + i * 2 + 1)).B = trunc16 (process
                (envC10.solve [rwC10.gammaCurve.getD 0 0, rwC10.gammaCurve.getD 1 0,
                  rwC10.gammaCurve.getD 2 0, rwC10.gammaCurve.getD 3 0])
                (envC10.decomp ((bufC10.drop (y * 32 + 0 + pixelBlockSize)).take pixelBlockSize) i)
                (rwC10.blackLevel.getD 1 0) (whiteBalanceRGGB rwC10.WhiteBalance 1))) :=
  ⟨rfl, rfl, by decide,
    crawOddRows_channels envC10 rwC10 bufC10 pbC10 rfl rfl (by decide)⟩

end Arw
